import Mathlib

/-!
Verification of the KnowS tool adapter (pkg/tools/knows.go).

This file gives a shallow embedding of the adapter's pure core: string
normalization helpers, the bounded TTL detail cache, the HTTP retry loop
(with the network exchange supplied by an oracle per attempt), response
envelope unwrapping, batch request parsing and the order-preserving batch
result assembly.  Machine integers (Go int / time.Duration, both 64-bit)
are modelled as Int with explicit wrap-around where overflow matters.
Times are absolute Int nanosecond instants passed explicitly.
-/

set_option maxRecDepth 4000

/-- Model of strings.TrimSpace: drop whitespace from both ends. -/
def trimSpace (s : String) : String :=
  String.mk (((s.toList.dropWhile Char.isWhitespace).reverse.dropWhile
      Char.isWhitespace).reverse)

/-- Model of strings.ToUpper (ASCII case mapping). -/
def toUpperGo (s : String) : String :=
  String.mk (s.toList.map Char.toUpper)

/-- Model of fmt %t formatting of a Go bool. -/
def goBoolString (b : Bool) : String :=
  if b then "true" else "false"

/-- Model of truncateForError from knows.go: trim, then cut to at most
max characters appending an ellipsis. -/
def truncateForError (value : String) (max : Int) : String :=
  let value := trimSpace value
  if max ≤ 0 ∨ (value.toList.length : Int) ≤ max then value
  else String.mk (value.toList.take max.toNat) ++ "..."

/-- Association-list model of a Go map with string keys: lookup of the
first binding for a key. -/
def mapLookup {α : Type} : List (String × α) → String → Option α
  | [], _ => none
  | (k', v) :: rest, k => if k' = k then some v else mapLookup rest k

/-- Insert into the map model: replace the first binding of the key in
place, or append a fresh binding. -/
def mapInsert {α : Type} : List (String × α) → String → α → List (String × α)
  | [], k, v => [(k, v)]
  | (k', v') :: rest, k, v =>
    if k' = k then (k, v) :: rest else (k', v') :: mapInsert rest k v

/-- Delete from the map model: remove every binding of the key (a Go map
holds at most one). -/
def mapDelete {α : Type} : List (String × α) → String → List (String × α)
  | [], _ => []
  | p :: rest, k => if p.1 = k then mapDelete rest k else p :: mapDelete rest k

/-- Key-presence test, the comma-ok form of a Go map read. -/
def mapHasKey {α : Type} (m : List (String × α)) (k : String) : Bool :=
  (mapLookup m k).isSome

/-- Remove the first occurrence of a key from the insertion-order list,
as the loop in deleteLocked does. -/
def removeFirst : List String → String → List String
  | [], _ => []
  | x :: rest, k => if x = k then rest else x :: removeFirst rest k

theorem mapLookup_mapInsert_self {α : Type} (m : List (String × α)) (k : String) (v : α) :
    mapLookup (mapInsert m k v) k = some v := by
  induction m with
  | nil => simp [mapInsert, mapLookup]
  | cons p rest ih =>
    by_cases h : p.1 = k
    · simp [mapInsert, mapLookup, h]
    · simp [mapInsert, mapLookup, h, ih]

theorem mapLookup_mapInsert_ne {α : Type} (m : List (String × α)) (k k' : String) (v : α)
    (h : k' ≠ k) : mapLookup (mapInsert m k v) k' = mapLookup m k' := by
  have hk : k ≠ k' := Ne.symm h
  induction m with
  | nil => simp [mapInsert, mapLookup, hk]
  | cons p rest ih =>
    by_cases hp : p.1 = k
    · subst hp
      simp [mapInsert, mapLookup, hk]
    · simp [mapInsert, mapLookup, hp, ih]

theorem mapLookup_mapDelete_self {α : Type} (m : List (String × α)) (k : String) :
    mapLookup (mapDelete m k) k = none := by
  induction m with
  | nil => simp [mapDelete, mapLookup]
  | cons p rest ih =>
    by_cases h : p.1 = k
    · simp [mapDelete, h, ih]
    · simp [mapDelete, mapLookup, h, ih]

theorem mapLookup_mapDelete_ne {α : Type} (m : List (String × α)) (k k' : String)
    (h : k' ≠ k) : mapLookup (mapDelete m k) k' = mapLookup m k' := by
  induction m with
  | nil => simp [mapDelete]
  | cons p rest ih =>
    by_cases hp : p.1 = k
    · subst hp
      simp [mapDelete, mapLookup, Ne.symm h, ih]
    · simp [mapDelete, mapLookup, hp, ih]

theorem mapLookup_eq_none_iff {α : Type} (m : List (String × α)) (k : String) :
    mapLookup m k = none ↔ k ∉ m.map Prod.fst := by
  induction m with
  | nil => simp [mapLookup]
  | cons p rest ih =>
    simp only [mapLookup, List.map_cons, List.mem_cons]
    by_cases h : p.1 = k
    · simp [h]
    · rw [if_neg h, ih]
      constructor
      · intro hn hor
        rcases hor with h1 | h2
        · exact h h1.symm
        · exact hn h2
      · intro hn h2
        exact hn (Or.inr h2)

theorem mapLookup_isSome_of_mem {α : Type} (m : List (String × α)) (k : String)
    (h : k ∈ m.map Prod.fst) : (mapLookup m k).isSome := by
  rcases ho : mapLookup m k with _ | v
  · exact absurd ((mapLookup_eq_none_iff m k).mp ho) (fun hn => hn h)
  · rfl

theorem mapDelete_eq_self_of_not_mem {α : Type} (m : List (String × α)) (k : String)
    (h : k ∉ m.map Prod.fst) : mapDelete m k = m := by
  induction m with
  | nil => rfl
  | cons p rest ih =>
    simp only [List.map_cons, List.mem_cons, not_or] at h
    simp only [mapDelete]
    rw [if_neg (fun hh => h.1 hh.symm), ih h.2]

theorem length_mapDelete_of_mem {α : Type} (m : List (String × α)) (k : String)
    (hnd : (m.map Prod.fst).Nodup) (h : k ∈ m.map Prod.fst) :
    (mapDelete m k).length + 1 = m.length := by
  induction m with
  | nil => simp at h
  | cons p rest ih =>
    simp only [List.map_cons, List.nodup_cons] at hnd
    by_cases hp : p.1 = k
    · simp only [mapDelete, if_pos hp]
      rw [mapDelete_eq_self_of_not_mem rest k (hp ▸ hnd.1)]
      simp
    · have hk : k ∈ rest.map Prod.fst := by
        rcases List.mem_cons.mp h with h1 | h2
        · exact absurd h1.symm hp
        · exact h2
      simp only [mapDelete, if_neg hp, List.length_cons]
      rw [← ih hnd.2 hk]

theorem length_mapInsert_of_none {α : Type} (m : List (String × α)) (k : String) (v : α)
    (h : mapLookup m k = none) : (mapInsert m k v).length = m.length + 1 := by
  induction m with
  | nil => simp [mapInsert]
  | cons p rest ih =>
    by_cases hp : p.1 = k
    · simp [mapLookup, hp] at h
    · simp only [mapLookup, if_neg hp] at h
      simp [mapInsert, hp, ih h]

/-- Value of a decoded JSON document (the result of json.Unmarshal into
an interface value): null, booleans, numbers, strings, arrays, objects. -/
inductive JsonV : Type where
  | null : JsonV
  | boolean : Bool → JsonV
  | num : Int → JsonV
  | str : String → JsonV
  | arr : List JsonV → JsonV
  | obj : List (String × JsonV) → JsonV

/-- Null test, the nested != nil check of postJSON. -/
def JsonV.isNull : JsonV → Bool
  | .null => true
  | _ => false

/-- Loosely typed value of a tool-call argument bag (a Go interface
value as produced by JSON argument decoding). -/
inductive GoVal : Type where
  | nil : GoVal
  | str : String → GoVal
  | boolean : Bool → GoVal
  | num : Int → GoVal
  | arr : List GoVal → GoVal
  | obj : List (String × GoVal) → GoVal

/-- Allowed data scopes, from knowsAllDataScopes in knows.go. -/
def knowsAllDataScopes : List String := ["PAPER", "PAPER_CN", "GUIDE", "MEETING"]

/-- Allowed answer types, from knowsAllowedAnswerTypes in knows.go. -/
def knowsAllowedAnswerTypes : List String := ["CLINICAL", "RESEARCH", "POPULAR_SCIENCE"]

/-- Default request timeout (120s) in nanoseconds. -/
def defaultKnowsRequestTimeout : Int := 120000000000

/-- Default number of retries beyond the first attempt. -/
def defaultKnowsMaxRetries : Int := 3

/-- Default retry backoff base (500ms) in nanoseconds. -/
def defaultKnowsRetryBackoff : Int := 500000000

/-- Default batch concurrency limit. -/
def defaultKnowsBatchLimit : Int := 5

/-- Default cache TTL (one hour) in nanoseconds. -/
def defaultKnowsCacheTTL : Int := 3600000000000

/-- Default cache capacity. -/
def defaultKnowsCacheEntries : Int := 500

/-- Cache entry from knows.go: stored value and absolute expiry time. -/
structure KnowsCacheEntry (α : Type) where
  value : α
  expiresAt : Int
deriving DecidableEq

/-- State of the detail cache from knows.go: map of entries, insertion
order of live keys, TTL and capacity.  The Go map is modelled as an
association list and the value type is a parameter (interface value in
the source). -/
structure KnowsDetailCache (α : Type) where
  entries : List (String × KnowsCacheEntry α)
  order : List String
  ttl : Int
  maxEntries : Int
deriving DecidableEq

/-- Constructor newKnowsDetailCache. -/
def newKnowsDetailCache (α : Type) (ttl maxEntries : Int) : KnowsDetailCache α :=
  { entries := [], order := [], ttl := ttl, maxEntries := maxEntries }

/-- Model of (*knowsDetailCache).deleteLocked: drop the key from the map
and its first occurrence from the insertion-order list. -/
def KnowsDetailCache.deleteLocked {α : Type} (c : KnowsDetailCache α) (key : String) :
    KnowsDetailCache α :=
  { c with entries := mapDelete c.entries key, order := removeFirst c.order key }

/-- Model of (*knowsDetailCache).Get at absolute time now: a missing key
misses; an entry with expiry strictly in the past is evicted and
misses; otherwise the value is returned with the state unchanged. -/
def KnowsDetailCache.Get {α : Type} (c : KnowsDetailCache α) (key : String) (now : Int) :
    Option α × KnowsDetailCache α :=
  match mapLookup c.entries key with
  | none => (none, c)
  | some entry =>
    if now > entry.expiresAt then (none, c.deleteLocked key)
    else (some entry.value, c)

/-- Eviction loop of Set: while the map is at or above capacity and the
order list is nonempty, evict the oldest-inserted key. -/
def knowsEvictLoop {α : Type} (entries : List (String × KnowsCacheEntry α))
    (order : List String) (maxEntries : Int) :
    List (String × KnowsCacheEntry α) × List String :=
  match order with
  | [] => (entries, [])
  | oldest :: rest =>
    if (entries.length : Int) ≥ maxEntries then
      knowsEvictLoop (mapDelete entries oldest) rest maxEntries
    else (entries, oldest :: rest)

/-- Model of (*knowsDetailCache).Set at absolute time now: a no-op when
capacity is non-positive; a new key first evicts oldest entries while at
capacity and is appended to the insertion order; the entry is then
written with expiry now + ttl.  An existing key keeps its position. -/
def KnowsDetailCache.Set {α : Type} (c : KnowsDetailCache α) (key : String) (value : α)
    (now : Int) : KnowsDetailCache α :=
  if c.maxEntries ≤ 0 then c
  else
    let c1 :=
      if mapHasKey c.entries key then c
      else
        let eo := knowsEvictLoop c.entries c.order c.maxEntries
        { c with entries := eo.1, order := eo.2 ++ [key] }
    { c1 with entries := mapInsert c1.entries key ⟨value, now + c.ttl⟩ }

/-- Well-formedness of a cache state: the insertion-order list has no
duplicates and lists exactly the keys of the entry map. -/
def cacheWF {α : Type} (c : KnowsDetailCache α) : Prop :=
  c.order.Nodup ∧ c.order.Perm (c.entries.map Prod.fst)

theorem length_mapDelete_le {α : Type} (m : List (String × α)) (k : String) :
    (mapDelete m k).length ≤ m.length := by
  induction m with
  | nil => simp [mapDelete]
  | cons p rest ih =>
    by_cases h : p.1 = k
    · simp only [mapDelete, if_pos h]
      exact Nat.le_succ_of_le ih
    · simp only [mapDelete, if_neg h, List.length_cons]
      omega

theorem length_mapDelete_lt_of_mem {α : Type} (m : List (String × α)) (k : String)
    (h : k ∈ m.map Prod.fst) : (mapDelete m k).length < m.length := by
  induction m with
  | nil => simp at h
  | cons p rest ih =>
    by_cases hp : p.1 = k
    · simp only [mapDelete, if_pos hp, List.length_cons]
      exact Nat.lt_succ_of_le (length_mapDelete_le rest k)
    · have hk : k ∈ rest.map Prod.fst := by
        rcases List.mem_cons.mp h with h1 | h2
        · exact absurd h1.symm hp
        · exact h2
      simp only [mapDelete, if_neg hp, List.length_cons]
      exact Nat.succ_lt_succ (ih hk)

theorem length_mapInsert_of_some {α : Type} (m : List (String × α)) (k : String)
    (v e : α) (h : mapLookup m k = some e) : (mapInsert m k v).length = m.length := by
  induction m with
  | nil => simp [mapLookup] at h
  | cons p rest ih =>
    by_cases hp : p.1 = k
    · simp [mapInsert, hp]
    · simp only [mapLookup, if_neg hp] at h
      simp [mapInsert, hp, ih h]

theorem mapLookup_Set_self {α : Type} (c : KnowsDetailCache α) (k : String) (v : α)
    (now : Int) (hmax : 0 < c.maxEntries) :
    mapLookup (c.Set k v now).entries k = some ⟨v, now + c.ttl⟩ := by
  unfold KnowsDetailCache.Set
  rw [if_neg (by omega)]
  by_cases hk : mapHasKey c.entries k
  · simp [hk, mapLookup_mapInsert_self]
  · simp [hk, mapLookup_mapInsert_self]

theorem Set_ttl_eq {α : Type} (c : KnowsDetailCache α) (k : String) (v : α) (now : Int) :
    (c.Set k v now).ttl = c.ttl := by
  unfold KnowsDetailCache.Set
  by_cases h0 : c.maxEntries ≤ 0
  · rw [if_pos h0]
  · rw [if_neg h0]
    by_cases hk : mapHasKey c.entries k <;> simp [hk]

theorem Get_eq_of_lookup_none {α : Type} (c : KnowsDetailCache α) (k : String)
    (now : Int) (hl : mapLookup c.entries k = none) : c.Get k now = (none, c) := by
  unfold KnowsDetailCache.Get
  rw [hl]

theorem Get_eq_of_lookup_some {α : Type} (c : KnowsDetailCache α) (k : String)
    (now : Int) (e : KnowsCacheEntry α) (hl : mapLookup c.entries k = some e) :
    c.Get k now =
      if now > e.expiresAt then (none, c.deleteLocked k) else (some e.value, c) := by
  unfold KnowsDetailCache.Get
  rw [hl]

/-- C3: for every key k and value v, after Set(k, v) a Get(k) performed
before the TTL has elapsed returns (v, found = true); once the TTL has
elapsed (relative to the entry's recorded expiry), Get(k) returns
found = false and evicts the entry as a side effect, so the expired
entry stops counting toward capacity; and the cache never returns an
entry whose expiry timestamp has passed. -/
theorem knows_cache_ttl_correct :
    (∀ (α : Type) (c : KnowsDetailCache α) (k : String) (v : α) (now now' : Int),
      0 < c.maxEntries → now' ≤ now + c.ttl →
      (c.Set k v now).Get k now' = (some v, c.Set k v now)) ∧
    (∀ (α : Type) (c : KnowsDetailCache α) (k : String) (now : Int)
      (e : KnowsCacheEntry α),
      mapLookup c.entries k = some e → now > e.expiresAt →
      c.Get k now = (none, c.deleteLocked k) ∧
      mapLookup (c.deleteLocked k).entries k = none ∧
      (c.deleteLocked k).entries.length < c.entries.length) ∧
    (∀ (α : Type) (c c' : KnowsDetailCache α) (k : String) (now : Int) (v : α),
      c.Get k now = (some v, c') →
      ∃ e, mapLookup c.entries k = some e ∧ now ≤ e.expiresAt ∧ e.value = v ∧ c' = c) := by
  refine ⟨?_, ?_, ?_⟩
  · intro α c k v now now' hmax hnow
    rw [Get_eq_of_lookup_some (c.Set k v now) k now' ⟨v, now + c.ttl⟩
      (mapLookup_Set_self c k v now hmax)]
    rw [if_neg (by simp; omega)]
  · intro α c k now e hl hexp
    refine ⟨?_, ?_, ?_⟩
    · rw [Get_eq_of_lookup_some c k now e hl, if_pos hexp]
    · unfold KnowsDetailCache.deleteLocked
      simpa using mapLookup_mapDelete_self c.entries k
    · unfold KnowsDetailCache.deleteLocked
      simp only
      apply length_mapDelete_lt_of_mem
      by_contra hnm
      rw [(mapLookup_eq_none_iff c.entries k).mpr hnm] at hl
      exact Option.noConfusion hl
  · intro α c c' k now v hget
    rcases hl : mapLookup c.entries k with _ | e
    · rw [Get_eq_of_lookup_none c k now hl] at hget
      exact Prod.noConfusion hget (fun h1 _ => Option.noConfusion h1)
    · rw [Get_eq_of_lookup_some c k now e hl] at hget
      by_cases hexp : now > e.expiresAt
      · rw [if_pos hexp] at hget
        exact Prod.noConfusion hget (fun h1 _ => Option.noConfusion h1)
      · rw [if_neg hexp] at hget
        have h1 : some e.value = some v := congrArg Prod.fst hget
        have h2 : c = c' := congrArg Prod.snd hget
        exact ⟨e, rfl, by omega, Option.some.inj h1, h2.symm⟩

/-- Concrete empty cache over Nat values with ttl 10 and capacity 2. -/
def cacheEx0 : KnowsDetailCache Nat := ⟨[], [], 10, 2⟩

/-- Witness for C3: evaluating the cache operations on a concrete state. -/
theorem knows_cache_ttl_correct_witness :
    (cacheEx0.Set "k" 5 0).Get "k" 3 = (some 5, cacheEx0.Set "k" 5 0) :=
  knows_cache_ttl_correct.1 Nat cacheEx0 "k" 5 0 3 (by decide) (by decide)

theorem knowsEvictLoop_at_capacity {α : Type}
    (entries : List (String × KnowsCacheEntry α)) (oldest : String)
    (rest : List String) (maxE : Int)
    (hnd : (entries.map Prod.fst).Nodup) (hmem : oldest ∈ entries.map Prod.fst)
    (hlen : (entries.length : Int) = maxE) :
    knowsEvictLoop entries (oldest :: rest) maxE = (mapDelete entries oldest, rest) := by
  unfold knowsEvictLoop
  rw [if_pos (le_of_eq hlen.symm)]
  have hdel : ((mapDelete entries oldest).length : Int) = maxE - 1 := by
    have := length_mapDelete_of_mem entries oldest hnd hmem
    omega
  match rest with
  | [] => unfold knowsEvictLoop; rfl
  | r :: rest' =>
    unfold knowsEvictLoop
    rw [if_neg (by omega)]

/-- C4: with a well-formed cache holding exactly maxEntries entries,
Set on an absent key evicts exactly the oldest-inserted key (the head
of the insertion order), appends the new key at the end of the order,
leaves every other entry unchanged, makes the new key retrievable, and
keeps the entry count at maxEntries; Set on a present key refreshes the
value and expiry but leaves the insertion order and count unchanged. -/
theorem knows_cache_fifo_eviction :
    (∀ (α : Type) (c : KnowsDetailCache α) (k : String) (v : α) (now : Int),
      cacheWF c → 0 < c.maxEntries → (c.entries.length : Int) = c.maxEntries →
      mapLookup c.entries k = none →
      ∃ oldest rest, c.order = oldest :: rest ∧
        (c.Set k v now).order = rest ++ [k] ∧
        mapLookup (c.Set k v now).entries oldest = none ∧
        mapLookup (c.Set k v now).entries k = some ⟨v, now + c.ttl⟩ ∧
        (∀ k', k' ≠ oldest → k' ≠ k →
          mapLookup (c.Set k v now).entries k' = mapLookup c.entries k') ∧
        ((c.Set k v now).entries.length : Int) = c.maxEntries) ∧
    (∀ (α : Type) (c : KnowsDetailCache α) (k : String) (v : α) (now : Int)
      (e : KnowsCacheEntry α),
      0 < c.maxEntries → mapLookup c.entries k = some e →
      (c.Set k v now).order = c.order ∧
      mapLookup (c.Set k v now).entries k = some ⟨v, now + c.ttl⟩ ∧
      (c.Set k v now).entries.length = c.entries.length) := by
  constructor
  · intro α c k v now hwf hmax hlen habs
    have hnd : (c.entries.map Prod.fst).Nodup := hwf.2.nodup hwf.1
    have horderlen : c.order.length = c.entries.length := by
      rw [hwf.2.length_eq, List.length_map]
    have hord : c.order ≠ [] := by
      intro h0
      rw [h0] at horderlen
      simp at horderlen
      omega
    match ho : c.order with
    | [] => exact absurd ho hord
    | oldest :: rest =>
      have hmem : oldest ∈ c.entries.map Prod.fst := by
        have : oldest ∈ c.order := by rw [ho]; exact List.mem_cons_self oldest rest
        exact hwf.2.mem_iff.mp this
      have hknotmem : k ∉ c.entries.map Prod.fst := (mapLookup_eq_none_iff _ _).mp habs
      have hne : oldest ≠ k := fun h => hknotmem (h ▸ hmem)
      have hev : knowsEvictLoop c.entries c.order c.maxEntries
          = (mapDelete c.entries oldest, rest) := by
        rw [ho]
        exact knowsEvictLoop_at_capacity c.entries oldest rest c.maxEntries hnd hmem hlen
      have hhk : mapHasKey c.entries k = false := by
        unfold mapHasKey
        rw [habs]
        rfl
      have hset : c.Set k v now =
          { c with
            entries := mapInsert (mapDelete c.entries oldest) k ⟨v, now + c.ttl⟩,
            order := rest ++ [k] } := by
        unfold KnowsDetailCache.Set
        rw [if_neg (by omega), hhk]
        simp only [Bool.false_eq_true, if_false, hev]
      have hdelk : mapLookup (mapDelete c.entries oldest) k = none := by
        rw [mapLookup_mapDelete_ne c.entries oldest k hne.symm]
        exact habs
      refine ⟨oldest, rest, rfl, ?_, ?_, ?_, ?_, ?_⟩
      · rw [hset]
      · rw [hset]
        simp only
        rw [mapLookup_mapInsert_ne _ _ _ _ hne]
        exact mapLookup_mapDelete_self c.entries oldest
      · rw [hset]
        simp only
        exact mapLookup_mapInsert_self _ _ _
      · intro k' hko hkk
        rw [hset]
        simp only
        rw [mapLookup_mapInsert_ne _ _ _ _ hkk, mapLookup_mapDelete_ne _ _ _ hko]
      · rw [hset]
        simp only
        rw [length_mapInsert_of_none _ _ _ hdelk]
        have := length_mapDelete_of_mem c.entries oldest hnd hmem
        omega
  · intro α c k v now e hmax hsome
    have hhk : mapHasKey c.entries k = true := by
      unfold mapHasKey
      rw [hsome]
      rfl
    have hset : c.Set k v now =
        { c with entries := mapInsert c.entries k ⟨v, now + c.ttl⟩ } := by
      unfold KnowsDetailCache.Set
      rw [if_neg (by omega), hhk]
      simp only [if_true]
    refine ⟨?_, ?_, ?_⟩
    · rw [hset]
    · rw [hset]
      simp only
      exact mapLookup_mapInsert_self _ _ _
    · rw [hset]
      simp only
      exact length_mapInsert_of_some c.entries k _ e hsome

/-- Concrete cache over Nat values at capacity 2 with live keys a then b. -/
def cacheEx1 : KnowsDetailCache Nat :=
  ⟨[("a", ⟨1, 10⟩), ("b", ⟨2, 10⟩)], ["a", "b"], 10, 2⟩

/-- Witness for C4: inserting a third key into the concrete cache at
capacity evicts the first-inserted key. -/
theorem knows_cache_fifo_eviction_witness :
    ∃ oldest rest, cacheEx1.order = oldest :: rest ∧
      (cacheEx1.Set "c" 7 0).order = rest ++ ["c"] ∧
      mapLookup (cacheEx1.Set "c" 7 0).entries oldest = none ∧
      mapLookup (cacheEx1.Set "c" 7 0).entries "c" = some ⟨7, 0 + cacheEx1.ttl⟩ ∧
      (∀ k', k' ≠ oldest → k' ≠ "c" →
        mapLookup (cacheEx1.Set "c" 7 0).entries k' = mapLookup cacheEx1.entries k') ∧
      (((cacheEx1.Set "c" 7 0).entries.length : Int) = cacheEx1.maxEntries) :=
  knows_cache_fifo_eviction.1 Nat cacheEx1 "c" 7 0
    ⟨by decide, by decide⟩ (by decide) (by decide) (by decide)

/-- Outcome of one HTTP attempt, the behaviour of the remote server and
transport on the nth try: a transport failure from the connection (with
a flag for context cancellation / deadline errors), a failure while
reading the response body after a status was received, or a complete
response with status and body. -/
inductive KnowsAttempt : Type where
  | doErr (isCtx : Bool) (msg : String) : KnowsAttempt
  | readFail (status : Nat) (isCtx : Bool) (msg : String) : KnowsAttempt
  | resp (status : Nat) (body : String) : KnowsAttempt

/-- Model of (*knowsClient).shouldRetry: no retry at or beyond
maxRetries; an error retries unless it is a cancellation / deadline
error; otherwise a 5xx status retries. -/
def shouldRetry (maxRetries attempt : Nat) (statusCode : Nat)
    (errIsCtx : Option Bool) : Bool :=
  if maxRetries ≤ attempt then false
  else
    match errIsCtx with
    | some isCtx => !isCtx
    | none => decide (500 ≤ statusCode ∧ statusCode ≤ 599)

/-- Transport-failure error text of postJSON. -/
def knowsTransportErrMsg (path msg : String) : String :=
  "request to " ++ path ++ " failed: " ++ msg

/-- Read-failure error text of postJSON. -/
def knowsReadErrMsg (path msg : String) : String :=
  "failed to read response from " ++ path ++ ": " ++ msg

/-- Non-2xx status error text of postJSON, carrying the status code and
the response body truncated to 500 characters. -/
def knowsStatusErrMsg (path : String) (status : Nat) (body : String) : String :=
  "request to " ++ path ++ " failed with status " ++ toString status ++ ": "
    ++ truncateForError body 500

/-- Decode-failure error text of postJSON. -/
def knowsDecodeErrMsg (path msg : String) : String :=
  "failed to decode response from " ++ path ++ ": " ++ msg

/-- Envelope unwrapping of postJSON: a decoded object whose data field
is present and non-null yields that nested value; anything else is
returned unchanged. -/
def unwrapData (raw : JsonV) : JsonV :=
  match raw with
  | .obj fields =>
    match mapLookup fields "data" with
    | some nested => if nested.isNull then raw else nested
    | none => raw
  | _ => raw

/-- Success-body handling of postJSON: an empty or whitespace-only body
yields an empty object; otherwise the body is decoded (the decode
function models json.Unmarshal) and the envelope is unwrapped. -/
def handleSuccessBody (path body : String) (decode : String → Except String JsonV) :
    Except String JsonV :=
  if (trimSpace body).toList.length = 0 then .ok (.obj [])
  else
    match decode body with
    | .error msg => .error (knowsDecodeErrMsg path msg)
    | .ok raw => .ok (unwrapData raw)

/-- Retry loop of postJSON, counting attempts.  The fuel is the number
of loop iterations still allowed (maxRetries + 1 - attempt); waitCtx
gives, per attempt, the cancellation error observed while waiting for
the backoff timer, if the context fires during the wait.  The result is
the number of attempts performed together with the call's outcome. -/
def postJSONLoop (path : String) (maxRetries : Nat) (oracle : Nat → KnowsAttempt)
    (decode : String → Except String JsonV) (waitCtx : Nat → Option String) :
    Nat → Nat → Option String → Nat × Except String JsonV
  | _, 0, lastErr => (0, .error (lastErr.getD ("request to " ++ path ++ " failed")))
  | attempt, fuel + 1, _ =>
    match oracle attempt with
    | .doErr isCtx msg =>
      let e := knowsTransportErrMsg path msg
      if shouldRetry maxRetries attempt 0 (some isCtx) then
        match waitCtx attempt with
        | some ctxErr => (1, .error ctxErr)
        | none =>
          let r := postJSONLoop path maxRetries oracle decode waitCtx
            (attempt + 1) fuel (some e)
          (r.1 + 1, r.2)
      else (1, .error e)
    | .readFail status isCtx msg =>
      let e := knowsReadErrMsg path msg
      if shouldRetry maxRetries attempt status (some isCtx) then
        match waitCtx attempt with
        | some ctxErr => (1, .error ctxErr)
        | none =>
          let r := postJSONLoop path maxRetries oracle decode waitCtx
            (attempt + 1) fuel (some e)
          (r.1 + 1, r.2)
      else (1, .error e)
    | .resp status body =>
      if status < 200 ∨ 300 ≤ status then
        let e := knowsStatusErrMsg path status body
        if shouldRetry maxRetries attempt status none then
          match waitCtx attempt with
          | some ctxErr => (1, .error ctxErr)
          | none =>
            let r := postJSONLoop path maxRetries oracle decode waitCtx
              (attempt + 1) fuel (some e)
            (r.1 + 1, r.2)
        else (1, .error e)
      else (1, handleSuccessBody path body decode)

/-- Model of (*knowsClient).postJSON: run the retry loop from attempt 0
with maxRetries + 1 allowed iterations. -/
def postJSON (path : String) (maxRetries : Nat) (oracle : Nat → KnowsAttempt)
    (decode : String → Except String JsonV) (waitCtx : Nat → Option String) :
    Nat × Except String JsonV :=
  postJSONLoop path maxRetries oracle decode waitCtx 0 (maxRetries + 1) none

/-- Retriable classification stated by the spec: a non-cancellation
transport or read failure, or a 5xx response. -/
def retriableAttempt : KnowsAttempt → Prop
  | .doErr isCtx _ => isCtx = false
  | .readFail _ isCtx _ => isCtx = false
  | .resp status _ => 500 ≤ status ∧ status ≤ 599

theorem of_shouldRetry_some {m a s : Nat} {c : Bool}
    (h : shouldRetry m a s (some c) = true) : a < m ∧ c = false := by
  unfold shouldRetry at h
  by_cases hm : m ≤ a
  · rw [if_pos hm] at h
    exact Bool.noConfusion h
  · rw [if_neg hm] at h
    exact ⟨by omega, by simpa using h⟩

theorem of_shouldRetry_none {m a s : Nat}
    (h : shouldRetry m a s none = true) : a < m ∧ 500 ≤ s ∧ s ≤ 599 := by
  unfold shouldRetry at h
  by_cases hm : m ≤ a
  · rw [if_pos hm] at h
    exact Bool.noConfusion h
  · rw [if_neg hm] at h
    exact ⟨by omega, of_decide_eq_true h⟩

theorem shouldRetry_none_false_of_lt_500 {m a s : Nat} (hs : s < 500) :
    shouldRetry m a s none = false := by
  unfold shouldRetry
  by_cases hm : m ≤ a
  · rw [if_pos hm]
  · rw [if_neg hm]
    simp only [decide_eq_false_iff_not]
    omega

theorem shouldRetry_some_true_false {m a s : Nat} :
    shouldRetry m a s (some true) = false := by
  unfold shouldRetry
  by_cases hm : m ≤ a
  · rw [if_pos hm]
  · rw [if_neg hm]
    rfl

theorem postJSONLoop_attempts_le (path : String) (maxRetries : Nat)
    (oracle : Nat → KnowsAttempt) (decode : String → Except String JsonV)
    (waitCtx : Nat → Option String) :
    ∀ fuel attempt lastErr,
      (postJSONLoop path maxRetries oracle decode waitCtx attempt fuel lastErr).1
        ≤ fuel := by
  intro fuel
  induction fuel with
  | zero =>
    intro attempt lastErr
    simp [postJSONLoop]
  | succ fuel ih =>
    intro attempt lastErr
    unfold postJSONLoop
    split <;> (try split) <;> (try split) <;> (try split) <;>
      first
        | exact Nat.succ_le_succ (ih _ _)
        | exact Nat.succ_le_succ (Nat.zero_le _)

theorem postJSONLoop_doErr_eq (path : String) (maxRetries : Nat)
    (oracle : Nat → KnowsAttempt) (decode : String → Except String JsonV)
    (waitCtx : Nat → Option String) (attempt fuel : Nat) (lastErr : Option String)
    (isCtx : Bool) (msg : String) (ho : oracle attempt = .doErr isCtx msg) :
    postJSONLoop path maxRetries oracle decode waitCtx attempt (fuel + 1) lastErr =
      if shouldRetry maxRetries attempt 0 (some isCtx) then
        match waitCtx attempt with
        | some ctxErr => (1, .error ctxErr)
        | none =>
          let r := postJSONLoop path maxRetries oracle decode waitCtx (attempt + 1)
            fuel (some (knowsTransportErrMsg path msg))
          (r.1 + 1, r.2)
      else (1, .error (knowsTransportErrMsg path msg)) := by
  conv_lhs => unfold postJSONLoop
  rw [ho]

theorem postJSONLoop_readFail_eq (path : String) (maxRetries : Nat)
    (oracle : Nat → KnowsAttempt) (decode : String → Except String JsonV)
    (waitCtx : Nat → Option String) (attempt fuel : Nat) (lastErr : Option String)
    (status : Nat) (isCtx : Bool) (msg : String)
    (ho : oracle attempt = .readFail status isCtx msg) :
    postJSONLoop path maxRetries oracle decode waitCtx attempt (fuel + 1) lastErr =
      if shouldRetry maxRetries attempt status (some isCtx) then
        match waitCtx attempt with
        | some ctxErr => (1, .error ctxErr)
        | none =>
          let r := postJSONLoop path maxRetries oracle decode waitCtx (attempt + 1)
            fuel (some (knowsReadErrMsg path msg))
          (r.1 + 1, r.2)
      else (1, .error (knowsReadErrMsg path msg)) := by
  conv_lhs => unfold postJSONLoop
  rw [ho]

theorem postJSONLoop_resp_eq (path : String) (maxRetries : Nat)
    (oracle : Nat → KnowsAttempt) (decode : String → Except String JsonV)
    (waitCtx : Nat → Option String) (attempt fuel : Nat) (lastErr : Option String)
    (status : Nat) (body : String) (ho : oracle attempt = .resp status body) :
    postJSONLoop path maxRetries oracle decode waitCtx attempt (fuel + 1) lastErr =
      if status < 200 ∨ 300 ≤ status then
        if shouldRetry maxRetries attempt status none then
          match waitCtx attempt with
          | some ctxErr => (1, .error ctxErr)
          | none =>
            let r := postJSONLoop path maxRetries oracle decode waitCtx (attempt + 1)
              fuel (some (knowsStatusErrMsg path status body))
            (r.1 + 1, r.2)
        else (1, .error (knowsStatusErrMsg path status body))
      else (1, handleSuccessBody path body decode) := by
  conv_lhs => unfold postJSONLoop
  rw [ho]

theorem postJSONLoop_resp503 (path : String) (maxRetries : Nat)
    (oracle : Nat → KnowsAttempt) (decode : String → Except String JsonV)
    (waitCtx : Nat → Option String) (b : String)
    (ho : ∀ n, oracle n = .resp 503 b) (hw : ∀ n, waitCtx n = none) :
    ∀ fuel attempt lastErr, attempt + fuel = maxRetries + 1 → 1 ≤ fuel →
      postJSONLoop path maxRetries oracle decode waitCtx attempt fuel lastErr
        = (fuel, .error (knowsStatusErrMsg path 503 b)) := by
  intro fuel
  induction fuel with
  | zero =>
    intro attempt lastErr hsum h1
    omega
  | succ fuel ih =>
    intro attempt lastErr hsum h1
    rw [postJSONLoop_resp_eq path maxRetries oracle decode waitCtx attempt fuel lastErr
      503 b (ho attempt)]
    rw [if_pos (Or.inr (by omega))]
    by_cases hfin : fuel = 0
    · subst hfin
      have hsr : shouldRetry maxRetries attempt 503 none = false := by
        unfold shouldRetry
        rw [if_pos (by omega)]
      rw [hsr]
      simp
    · have hsr : shouldRetry maxRetries attempt 503 none = true := by
        unfold shouldRetry
        rw [if_neg (by omega)]
        rfl
      rw [hsr]
      simp only [if_true, hw attempt]
      rw [ih (attempt + 1) (some (knowsStatusErrMsg path 503 b)) (by omega) (by omega)]

theorem postJSONLoop_retried_only (path : String) (maxRetries : Nat)
    (oracle : Nat → KnowsAttempt) (decode : String → Except String JsonV)
    (waitCtx : Nat → Option String) :
    ∀ fuel attempt lastErr k,
      k + 1 < (postJSONLoop path maxRetries oracle decode waitCtx attempt fuel lastErr).1 →
      retriableAttempt (oracle (attempt + k)) ∧ attempt + k < maxRetries ∧
        waitCtx (attempt + k) = none := by
  intro fuel
  induction fuel with
  | zero =>
    intro attempt lastErr k h
    simp [postJSONLoop] at h
  | succ fuel ih =>
    intro attempt lastErr k h
    cases ho : oracle attempt with
    | doErr isCtx msg =>
      rw [postJSONLoop_doErr_eq path maxRetries oracle decode waitCtx attempt fuel
        lastErr isCtx msg ho] at h
      by_cases hr : shouldRetry maxRetries attempt 0 (some isCtx) = true
      · rw [if_pos hr] at h
        cases hw : waitCtx attempt with
        | some ctxErr =>
          rw [hw] at h
          have h1 : k + 1 < 1 := h
          omega
        | none =>
          rw [hw] at h
          have h1 : k + 1 < (postJSONLoop path maxRetries oracle decode waitCtx
            (attempt + 1) fuel (some (knowsTransportErrMsg path msg))).1 + 1 := h
          cases k with
          | zero =>
            have hf := of_shouldRetry_some hr
            refine ⟨?_, by omega, ?_⟩
            · rw [Nat.add_zero, ho]
              exact hf.2
            · rw [Nat.add_zero]
              exact hw
          | succ k =>
            have h2 : k + 1 < (postJSONLoop path maxRetries oracle decode waitCtx
              (attempt + 1) fuel (some (knowsTransportErrMsg path msg))).1 := by omega
            obtain ⟨r1, r2, r3⟩ := ih (attempt + 1)
              (some (knowsTransportErrMsg path msg)) k h2
            have heq : attempt + (k + 1) = attempt + 1 + k := by omega
            exact ⟨heq ▸ r1, by omega, heq ▸ r3⟩
      · rw [if_neg hr] at h
        have h1 : k + 1 < 1 := h
        omega
    | readFail status isCtx msg =>
      rw [postJSONLoop_readFail_eq path maxRetries oracle decode waitCtx attempt fuel
        lastErr status isCtx msg ho] at h
      by_cases hr : shouldRetry maxRetries attempt status (some isCtx) = true
      · rw [if_pos hr] at h
        cases hw : waitCtx attempt with
        | some ctxErr =>
          rw [hw] at h
          have h1 : k + 1 < 1 := h
          omega
        | none =>
          rw [hw] at h
          have h1 : k + 1 < (postJSONLoop path maxRetries oracle decode waitCtx
            (attempt + 1) fuel (some (knowsReadErrMsg path msg))).1 + 1 := h
          cases k with
          | zero =>
            have hf := of_shouldRetry_some hr
            refine ⟨?_, by omega, ?_⟩
            · rw [Nat.add_zero, ho]
              exact hf.2
            · rw [Nat.add_zero]
              exact hw
          | succ k =>
            have h2 : k + 1 < (postJSONLoop path maxRetries oracle decode waitCtx
              (attempt + 1) fuel (some (knowsReadErrMsg path msg))).1 := by omega
            obtain ⟨r1, r2, r3⟩ := ih (attempt + 1)
              (some (knowsReadErrMsg path msg)) k h2
            have heq : attempt + (k + 1) = attempt + 1 + k := by omega
            exact ⟨heq ▸ r1, by omega, heq ▸ r3⟩
      · rw [if_neg hr] at h
        have h1 : k + 1 < 1 := h
        omega
    | resp status body =>
      rw [postJSONLoop_resp_eq path maxRetries oracle decode waitCtx attempt fuel
        lastErr status body ho] at h
      by_cases hst : status < 200 ∨ 300 ≤ status
      · rw [if_pos hst] at h
        by_cases hr : shouldRetry maxRetries attempt status none = true
        · rw [if_pos hr] at h
          cases hw : waitCtx attempt with
          | some ctxErr =>
            rw [hw] at h
            have h1 : k + 1 < 1 := h
            omega
          | none =>
            rw [hw] at h
            have h1 : k + 1 < (postJSONLoop path maxRetries oracle decode waitCtx
              (attempt + 1) fuel (some (knowsStatusErrMsg path status body))).1 + 1 := h
            cases k with
            | zero =>
              have hf := of_shouldRetry_none hr
              refine ⟨?_, by omega, ?_⟩
              · rw [Nat.add_zero, ho]
                exact hf.2
              · rw [Nat.add_zero]
                exact hw
            | succ k =>
              have h2 : k + 1 < (postJSONLoop path maxRetries oracle decode waitCtx
                (attempt + 1) fuel (some (knowsStatusErrMsg path status body))).1 := by
                omega
              obtain ⟨r1, r2, r3⟩ := ih (attempt + 1)
                (some (knowsStatusErrMsg path status body)) k h2
              have heq : attempt + (k + 1) = attempt + 1 + k := by omega
              exact ⟨heq ▸ r1, by omega, heq ▸ r3⟩
        · rw [if_neg hr] at h
          have h1 : k + 1 < 1 := h
          omega
      · rw [if_neg hst] at h
        have h1 : k + 1 < 1 := h
        omega

/-- C2: attempts are bounded by maxRetries + 1; an attempt is followed
by another one only when it saw a non-cancellation transport or read
failure or a 5xx status (and the backoff wait was not cancelled); a 4xx
response fails immediately with the status and truncated body in the
error message; a cancellation / deadline transport error is never
retried; and a server that always answers 503 yields exactly
maxRetries + 1 attempts, failing with the last observed error. -/
theorem knows_retry_policy (path : String) (maxRetries : Nat)
    (oracle : Nat → KnowsAttempt) (decode : String → Except String JsonV)
    (waitCtx : Nat → Option String) :
    (postJSON path maxRetries oracle decode waitCtx).1 ≤ maxRetries + 1 ∧
    (∀ k, k + 1 < (postJSON path maxRetries oracle decode waitCtx).1 →
      retriableAttempt (oracle k) ∧ k < maxRetries ∧ waitCtx k = none) ∧
    (∀ status body, 400 ≤ status → status ≤ 499 → oracle 0 = .resp status body →
      postJSON path maxRetries oracle decode waitCtx
        = (1, .error (knowsStatusErrMsg path status body))) ∧
    (∀ msg, oracle 0 = .doErr true msg →
      postJSON path maxRetries oracle decode waitCtx
        = (1, .error (knowsTransportErrMsg path msg))) ∧
    (∀ body, (∀ n, oracle n = .resp 503 body) → (∀ n, waitCtx n = none) →
      postJSON path maxRetries oracle decode waitCtx
        = (maxRetries + 1, .error (knowsStatusErrMsg path 503 body))) := by
  refine ⟨?_, ?_, ?_, ?_, ?_⟩
  · exact postJSONLoop_attempts_le path maxRetries oracle decode waitCtx
      (maxRetries + 1) 0 none
  · intro k hk
    have := postJSONLoop_retried_only path maxRetries oracle decode waitCtx
      (maxRetries + 1) 0 none k hk
    simpa using this
  · intro status body h4 h5 ho
    unfold postJSON
    rw [postJSONLoop_resp_eq path maxRetries oracle decode waitCtx 0 maxRetries none
      status body ho]
    rw [if_pos (Or.inr (by omega))]
    rw [if_neg (by rw [shouldRetry_none_false_of_lt_500 (by omega)]; exact
      Bool.false_ne_true)]
  · intro msg ho
    unfold postJSON
    rw [postJSONLoop_doErr_eq path maxRetries oracle decode waitCtx 0 maxRetries none
      true msg ho]
    rw [if_neg (by rw [shouldRetry_some_true_false]; exact Bool.false_ne_true)]
  · intro body ho hw
    exact postJSONLoop_resp503 path maxRetries oracle decode waitCtx body ho hw
      (maxRetries + 1) 0 none (by omega) (by omega)

/-- Concrete attempt oracle: the server always answers 503 busy. -/
def oracle503 : Nat → KnowsAttempt := fun _ => .resp 503 "busy"

/-- Concrete decode oracle, never consulted in the retry witnesses. -/
def decodeUnused : String → Except String JsonV := fun _ => .error "unused"

/-- Concrete wait oracle: the context never fires during backoff. -/
def waitCtxNone : Nat → Option String := fun _ => none

/-- Witness for C2: with 2 retries against an always-503 server, the
call performs exactly 3 attempts and fails with the 503 error. -/
theorem knows_retry_policy_witness :
    postJSON "/knows/answer" 2 oracle503 decodeUnused waitCtxNone
      = (3, .error (knowsStatusErrMsg "/knows/answer" 503 "busy")) :=
  (knows_retry_policy "/knows/answer" 2 oracle503 decodeUnused waitCtxNone).2.2.2.2
    "busy" (fun _ => rfl) (fun _ => rfl)

theorem toList_length_eq_zero_iff (s : String) : s.toList.length = 0 ↔ s = "" := by
  constructor
  · intro h
    have hl : s.toList = [] := List.eq_nil_of_length_eq_zero h
    cases s with
    | mk l => exact congrArg String.mk hl
  · intro h
    subst h
    rfl

/-- Concrete JSON body with a null data field. -/
def bodyDataNull : String := "\x7b\"data\": null\x7d"

/-- Concrete json.Unmarshal behaviour for bodyDataNull. -/
def decodeDataNull : String → Except String JsonV := fun s =>
  if s = bodyDataNull then .ok (.obj [("data", .null)])
  else .error "invalid character"

/-- Counterexample for C6: a 2xx response whose body is a JSON object
with a null data field is returned whole by the code, not unwrapped to
the nested null value as the claim prescribes. -/
theorem knows_envelope_unwrap_cex :
    decodeDataNull bodyDataNull = .ok (.obj [("data", .null)]) ∧
    handleSuccessBody "/knows/answer" bodyDataNull decodeDataNull
      = .ok (.obj [("data", .null)]) ∧
    JsonV.obj [("data", JsonV.null)] ≠ JsonV.null := by
  refine ⟨rfl, rfl, ?_⟩
  intro h
  exact JsonV.noConfusion h

theorem handleSuccessBody_ok {path body : String}
    {decode : String → Except String JsonV} {raw : JsonV}
    (hne : (trimSpace body).toList.length ≠ 0) (hdec : decode body = .ok raw) :
    handleSuccessBody path body decode = .ok (unwrapData raw) := by
  unfold handleSuccessBody
  rw [if_neg hne, hdec]

theorem unwrapData_obj_of_some {fields : List (String × JsonV)} {nested : JsonV}
    (hl : mapLookup fields "data" = some nested) :
    unwrapData (.obj fields) = if nested.isNull then JsonV.obj fields else nested := by
  simp only [unwrapData]
  rw [hl]

theorem unwrapData_obj_of_none {fields : List (String × JsonV)}
    (hl : mapLookup fields "data" = none) :
    unwrapData (.obj fields) = .obj fields := by
  simp only [unwrapData]
  rw [hl]

theorem unwrapData_not_obj {raw : JsonV} (hobj : ∀ fields, raw ≠ .obj fields) :
    unwrapData raw = raw := by
  cases raw with
  | obj fields => exact absurd rfl (hobj fields)
  | null => rfl
  | boolean b => rfl
  | num n => rfl
  | str s => rfl
  | arr xs => rfl

theorem trim_toList_ne_zero {body : String} (hne : trimSpace body ≠ "") :
    (trimSpace body).toList.length ≠ 0 :=
  fun h => hne ((toList_length_eq_zero_iff (trimSpace body)).mp h)

/-- C6 (amended): for a 2xx exchange, an empty or whitespace-only body
yields an empty object; a decoded object with a present non-null data
field is unwrapped to that nested value; an object whose data field is
absent or null, and any non-object document, are returned unchanged;
and the loop hands a 2xx first response straight to this body handling. -/
theorem knows_envelope_unwrap (path body : String)
    (decode : String → Except String JsonV) :
    (trimSpace body = "" → handleSuccessBody path body decode = .ok (.obj [])) ∧
    (∀ fields nested, trimSpace body ≠ "" → decode body = .ok (.obj fields) →
      mapLookup fields "data" = some nested → nested.isNull = false →
      handleSuccessBody path body decode = .ok nested) ∧
    (∀ fields, trimSpace body ≠ "" → decode body = .ok (.obj fields) →
      (mapLookup fields "data" = none ∨ mapLookup fields "data" = some .null) →
      handleSuccessBody path body decode = .ok (.obj fields)) ∧
    (∀ raw, trimSpace body ≠ "" → decode body = .ok raw →
      (∀ fields, raw ≠ .obj fields) →
      handleSuccessBody path body decode = .ok raw) ∧
    (∀ maxRetries oracle waitCtx status,
      oracle 0 = KnowsAttempt.resp status body → 200 ≤ status → status < 300 →
      postJSON path maxRetries oracle decode waitCtx
        = (1, handleSuccessBody path body decode)) := by
  refine ⟨?_, ?_, ?_, ?_, ?_⟩
  · intro h
    unfold handleSuccessBody
    rw [if_pos ((toList_length_eq_zero_iff (trimSpace body)).mpr h)]
  · intro fields nested hne hdec hlook hnull
    rw [handleSuccessBody_ok (trim_toList_ne_zero hne) hdec,
      unwrapData_obj_of_some hlook,
      if_neg (by rw [hnull]; exact Bool.false_ne_true)]
  · intro fields hne hdec hlook
    rcases hlook with hl | hl
    · rw [handleSuccessBody_ok (trim_toList_ne_zero hne) hdec,
        unwrapData_obj_of_none hl]
    · rw [handleSuccessBody_ok (trim_toList_ne_zero hne) hdec,
        unwrapData_obj_of_some hl]
      rfl
  · intro raw hne hdec hobj
    rw [handleSuccessBody_ok (trim_toList_ne_zero hne) hdec, unwrapData_not_obj hobj]
  · intro maxRetries oracle waitCtx status ho h2 h3
    unfold postJSON
    rw [postJSONLoop_resp_eq path maxRetries oracle decode waitCtx 0 maxRetries none
      status body ho]
    rw [if_neg (by omega)]

/-- Concrete json.Unmarshal behaviour giving an enveloped string value. -/
def decodeDataStr : String → Except String JsonV := fun s =>
  if s = "env" then .ok (.obj [("data", .str "x")])
  else .error "invalid character"

/-- Witness for C6 (amended): the concrete enveloped body is unwrapped
to its nested value. -/
theorem knows_envelope_unwrap_witness :
    handleSuccessBody "/knows/answer" "env" decodeDataStr = .ok (.str "x") :=
  (knows_envelope_unwrap "/knows/answer" "env" decodeDataStr).2.1
    [("data", .str "x")] (.str "x") (by decide) rfl rfl rfl

/-- Wrap an unbounded integer to signed 64-bit two's-complement range,
the semantics of Go int64 arithmetic. -/
def int64Wrap (n : Int) : Int := (n + 2 ^ 63) % 2 ^ 64 - 2 ^ 63

/-- Go expression 1 << attempt at type int64 (64-bit wrap; a shift by
64 or more yields 0, matching the wrap of the power). -/
def goShiftOne (attempt : Nat) : Int := int64Wrap (2 ^ attempt)

/-- Delay computation of waitRetry: baseDelay * (1 << attempt) in int64
arithmetic, capped at 8 seconds. -/
def waitRetryDelay (baseDelay : Int) (attempt : Nat) : Int :=
  let delay := int64Wrap (baseDelay * goShiftOne attempt)
  if delay > 8000000000 then 8000000000 else delay

theorem int64Wrap_eq_self {x : Int} (h0 : -(2 ^ 63) ≤ x) (h1 : x < 2 ^ 63) :
    int64Wrap x = x := by
  unfold int64Wrap
  have hm : (x + 2 ^ 63) % 2 ^ 64 = x + 2 ^ 63 :=
    Int.emod_eq_of_lt (by omega) (by omega)
  omega

/-- Counterexample for C7: at the default 500ms backoff and attempt
number 35 the 64-bit product wraps negative, so the computed delay is
not the claimed min(backoff * 2^35, 8s) = 8s. -/
theorem knows_backoff_cex :
    waitRetryDelay 500000000 35 = -1266874889709551616 ∧
    min ((500000000 : Int) * 2 ^ 35) 8000000000 = 8000000000 ∧
    (-1266874889709551616 : Int) ≠ 8000000000 := by
  refine ⟨by decide, by decide, by decide⟩

/-- C7 (amended): whenever baseDelay * 2^attempt stays below 2^63 (no
64-bit overflow), the backoff delay equals min(baseDelay * 2^attempt,
8s); and if the cancellation signal fires during the backoff wait of a
retried attempt, the call fails immediately with the cancellation
error. -/
theorem knows_backoff_wait :
    (∀ (baseDelay : Int) (attempt : Nat), 0 < baseDelay →
      baseDelay * 2 ^ attempt < 2 ^ 63 →
      waitRetryDelay baseDelay attempt = min (baseDelay * 2 ^ attempt) 8000000000) ∧
    (∀ (path : String) (maxRetries : Nat) (oracle : Nat → KnowsAttempt)
      (decode : String → Except String JsonV) (waitCtx : Nat → Option String)
      (status : Nat) (body ctxErr : String),
      oracle 0 = KnowsAttempt.resp status body → 500 ≤ status → status ≤ 599 →
      0 < maxRetries → waitCtx 0 = some ctxErr →
      postJSON path maxRetries oracle decode waitCtx = (1, .error ctxErr)) := by
  constructor
  · intro baseDelay attempt hpos hof
    have hp0 : (0 : Int) < 2 ^ attempt := by positivity
    have hple : (2 : Int) ^ attempt ≤ baseDelay * 2 ^ attempt := by
      have := Int.mul_le_mul_of_nonneg_right (by omega : (1 : Int) ≤ baseDelay)
        (le_of_lt hp0)
      simpa using this
    have hprod : (0 : Int) ≤ baseDelay * 2 ^ attempt :=
      mul_nonneg (by omega) (le_of_lt hp0)
    have hshift : goShiftOne attempt = 2 ^ attempt := by
      unfold goShiftOne
      exact int64Wrap_eq_self (by omega) (by omega)
    unfold waitRetryDelay
    rw [hshift]
    rw [int64Wrap_eq_self (by omega) hof]
    by_cases hc : baseDelay * 2 ^ attempt > 8000000000
    · rw [if_pos hc]
      omega
    · rw [if_neg hc]
      omega
  · intro path maxRetries oracle decode waitCtx status body ctxErr ho h5a h5b hm hw
    unfold postJSON
    rw [postJSONLoop_resp_eq path maxRetries oracle decode waitCtx 0 maxRetries none
      status body ho]
    rw [if_pos (Or.inr (by omega))]
    have hsr : shouldRetry maxRetries 0 status none = true := by
      unfold shouldRetry
      rw [if_neg (by omega)]
      exact decide_eq_true ⟨h5a, h5b⟩
    rw [hsr]
    simp only [if_true, hw]

/-- Witness for C7 (amended): the concrete delay at the default backoff
and attempt 2 matches the capped exponential formula. -/
theorem knows_backoff_wait_witness :
    waitRetryDelay 500000000 2 = min ((500000000 : Int) * 2 ^ 2) 8000000000 :=
  knows_backoff_wait.1 500000000 2 (by norm_num) (by norm_num)

/-- Model of normalizeDataScope: trim and uppercase, reject empty and
values outside the fixed allowed set. -/
def normalizeDataScope (scope : String) : Except String String :=
  let normalized := toUpperGo (trimSpace scope)
  if normalized = "" then .error "data scope must be non-empty"
  else if normalized ∈ knowsAllDataScopes then .ok normalized
  else .error ("unsupported data scope \"" ++ scope
    ++ "\"; allowed: PAPER, PAPER_CN, GUIDE, MEETING")

/-- Loop of normalizeDataScopes with its seen set: normalize each
element, propagate the first error, and skip duplicates. -/
def normalizeDataScopesAux : List String → List String → Except String (List String)
  | [], _ => .ok []
  | s :: rest, seen =>
    match normalizeDataScope s with
    | .error e => .error e
    | .ok n =>
      if n ∈ seen then normalizeDataScopesAux rest seen
      else
        match normalizeDataScopesAux rest (n :: seen) with
        | .error e => .error e
        | .ok out => .ok (n :: out)

/-- Model of normalizeDataScopes: empty input maps to the empty result,
otherwise the normalize-and-dedup loop runs with an empty seen set. -/
def normalizeDataScopes (scopes : List String) : Except String (List String) :=
  if scopes.isEmpty then .ok []
  else normalizeDataScopesAux scopes []

/-- Model of normalizeAnswerType: trim and uppercase, reject empty and
values outside the fixed allowed set. -/
def normalizeAnswerType (answerType : String) : Except String String :=
  let normalized := toUpperGo (trimSpace answerType)
  if normalized = "" then .error "answer_type must be non-empty"
  else if normalized ∈ knowsAllowedAnswerTypes then .ok normalized
  else .error ("unsupported answer_type \"" ++ answerType
    ++ "\"; allowed: CLINICAL, RESEARCH, POPULAR_SCIENCE")

/-- Modelled from the spec: first-occurrence deduplication with a seen
accumulator, the reference behaviour the dedup loop is compared with. -/
def dedupFirstAux : List String → List String → List String
  | [], _ => []
  | x :: xs, seen =>
    if x ∈ seen then dedupFirstAux xs seen else x :: dedupFirstAux xs (x :: seen)

/-- Modelled from the spec: keep the first occurrence of each element,
dropping later duplicates. -/
def dedupFirst (l : List String) : List String := dedupFirstAux l []

theorem normalizeDataScope_ok_val {s n : String}
    (h : normalizeDataScope s = .ok n) : n = toUpperGo (trimSpace s) := by
  unfold normalizeDataScope at h
  by_cases h1 : toUpperGo (trimSpace s) = ""
  · rw [if_pos h1] at h
    exact Except.noConfusion h
  · rw [if_neg h1] at h
    by_cases h2 : toUpperGo (trimSpace s) ∈ knowsAllDataScopes
    · rw [if_pos h2] at h
      exact (Except.ok.inj h).symm
    · rw [if_neg h2] at h
      exact Except.noConfusion h

theorem normalizeDataScope_ok_mem {s n : String}
    (h : normalizeDataScope s = .ok n) : n ∈ knowsAllDataScopes := by
  unfold normalizeDataScope at h
  by_cases h1 : toUpperGo (trimSpace s) = ""
  · rw [if_pos h1] at h
    exact Except.noConfusion h
  · rw [if_neg h1] at h
    by_cases h2 : toUpperGo (trimSpace s) ∈ knowsAllDataScopes
    · rw [if_pos h2] at h
      rw [Except.ok.inj h] at h2
      exact h2
    · rw [if_neg h2] at h
      exact Except.noConfusion h

theorem normalizeDataScope_isOk_iff (s : String) :
    (∃ n, normalizeDataScope s = .ok n) ↔
      toUpperGo (trimSpace s) ∈ knowsAllDataScopes := by
  constructor
  · rintro ⟨n, h⟩
    rw [← normalizeDataScope_ok_val h]
    exact normalizeDataScope_ok_mem h
  · intro hmem
    have hne : toUpperGo (trimSpace s) ≠ "" := by
      intro h0
      rw [h0] at hmem
      exact absurd hmem (by decide)
    refine ⟨toUpperGo (trimSpace s), ?_⟩
    unfold normalizeDataScope
    rw [if_neg hne, if_pos hmem]

theorem normalizeDataScopesAux_ok_char :
    ∀ (l seen out : List String),
      normalizeDataScopesAux l seen = .ok out →
      out = dedupFirstAux (l.map (fun s => toUpperGo (trimSpace s))) seen := by
  intro l
  induction l with
  | nil =>
    intro seen out h
    simp only [normalizeDataScopesAux] at h
    rw [← Except.ok.inj h]
    rfl
  | cons s rest ih =>
    intro seen out h
    rcases hn : normalizeDataScope s with e | n
    · simp only [normalizeDataScopesAux, hn] at h
      exact Except.noConfusion h
    · simp only [normalizeDataScopesAux, hn] at h
      have hval : n = toUpperGo (trimSpace s) := normalizeDataScope_ok_val hn
      by_cases hseen : n ∈ seen
      · rw [if_pos hseen] at h
        have hd := ih seen out h
        simp only [List.map_cons, dedupFirstAux]
        rw [if_pos (hval ▸ hseen)]
        exact hd
      · rw [if_neg hseen] at h
        rcases hrec : normalizeDataScopesAux rest (n :: seen) with e | out'
        · simp only [hrec] at h
          exact Except.noConfusion h
        · simp only [hrec] at h
          have hout : out = n :: out' := (Except.ok.inj h).symm
          have hd := ih (n :: seen) out' hrec
          simp only [List.map_cons, dedupFirstAux]
          rw [if_neg (hval ▸ hseen)]
          rw [hout, hd, hval]

theorem normalizeDataScopesAux_ok_mem :
    ∀ (l seen out : List String),
      normalizeDataScopesAux l seen = .ok out →
      ∀ x ∈ out, x ∈ knowsAllDataScopes := by
  intro l
  induction l with
  | nil =>
    intro seen out h x hx
    simp only [normalizeDataScopesAux] at h
    rw [← Except.ok.inj h] at hx
    simp at hx
  | cons s rest ih =>
    intro seen out h x hx
    rcases hn : normalizeDataScope s with e | n
    · simp only [normalizeDataScopesAux, hn] at h
      exact Except.noConfusion h
    · simp only [normalizeDataScopesAux, hn] at h
      by_cases hseen : n ∈ seen
      · rw [if_pos hseen] at h
        exact ih seen out h x hx
      · rw [if_neg hseen] at h
        rcases hrec : normalizeDataScopesAux rest (n :: seen) with e | out'
        · simp only [hrec] at h
          exact Except.noConfusion h
        · simp only [hrec] at h
          rw [(Except.ok.inj h).symm] at hx
          rcases List.mem_cons.mp hx with h1 | h2
          · rw [h1]
            exact normalizeDataScope_ok_mem hn
          · exact ih (n :: seen) out' hrec x h2

theorem dedupFirstAux_nodup_and_fresh :
    ∀ (l seen : List String),
      (dedupFirstAux l seen).Nodup ∧ ∀ x ∈ dedupFirstAux l seen, x ∉ seen := by
  intro l
  induction l with
  | nil =>
    intro seen
    simp [dedupFirstAux]
  | cons x xs ih =>
    intro seen
    by_cases hx : x ∈ seen
    · simp only [dedupFirstAux, if_pos hx]
      exact ih seen
    · simp only [dedupFirstAux, if_neg hx]
      obtain ⟨hnd, hfresh⟩ := ih (x :: seen)
      refine ⟨List.nodup_cons.mpr ⟨?_, hnd⟩, ?_⟩
      · intro hmem
        exact hfresh x hmem (List.mem_cons_self x seen)
      · intro y hy
        rcases List.mem_cons.mp hy with h1 | h2
        · rw [h1]
          exact hx
        · intro hys
          exact hfresh y h2 (List.mem_cons_of_mem x hys)

theorem normalizeDataScopesAux_self :
    ∀ (l : List String), (∀ x ∈ l, normalizeDataScope x = .ok x) → l.Nodup →
      ∀ seen, (∀ x ∈ l, x ∉ seen) → normalizeDataScopesAux l seen = .ok l := by
  intro l
  induction l with
  | nil =>
    intro _ _ seen _
    rfl
  | cons x xs ih =>
    intro hok hnd seen hfresh
    simp only [normalizeDataScopesAux, hok x (List.mem_cons_self x xs)]
    rw [if_neg (hfresh x (List.mem_cons_self x xs))]
    have hnd' := List.nodup_cons.mp hnd
    rw [ih (fun y hy => hok y (List.mem_cons_of_mem x hy)) hnd'.2 (x :: seen) ?_]
    intro y hy
    intro hmem
    rcases List.mem_cons.mp hmem with h1 | h2
    · exact hnd'.1 (h1 ▸ hy)
    · exact hfresh y (List.mem_cons_of_mem x hy) h2

theorem scope_self_normal : ∀ x ∈ knowsAllDataScopes, normalizeDataScope x = .ok x := by
  intro x hx
  fin_cases hx <;> rfl

/-- C10: a successful scope normalization deduplicates: the output is
the first-occurrence dedup of the trimmed-and-uppercased inputs, has no
duplicates, and normalizing the output again returns it unchanged. -/
theorem knows_scope_dedup :
    ∀ (l out : List String), normalizeDataScopes l = .ok out →
      out = dedupFirst (l.map (fun s => toUpperGo (trimSpace s))) ∧
      out.Nodup ∧
      normalizeDataScopes out = .ok out := by
  intro l out h
  unfold normalizeDataScopes at h
  by_cases hl : l.isEmpty
  · rw [if_pos hl] at h
    have hout : out = [] := (Except.ok.inj h).symm
    have hln : l = [] := List.isEmpty_iff.mp hl
    subst hout
    subst hln
    exact ⟨rfl, List.nodup_nil, rfl⟩
  · rw [if_neg hl] at h
    have hchar := normalizeDataScopesAux_ok_char l [] out h
    have hmem := normalizeDataScopesAux_ok_mem l [] out h
    have hnd : out.Nodup := by
      rw [hchar]
      exact (dedupFirstAux_nodup_and_fresh _ []).1
    refine ⟨hchar, hnd, ?_⟩
    unfold normalizeDataScopes
    by_cases ho : out.isEmpty
    · rw [if_pos ho, List.isEmpty_iff.mp ho]
    · rw [if_neg ho]
      exact normalizeDataScopesAux_self out
        (fun x hx => scope_self_normal x (hmem x hx)) hnd []
        (fun x hx => List.not_mem_nil x)

/-- Witness for C10: a concrete list with mixed case and a duplicate
normalizes to the deduplicated uppercase list, idempotently. -/
theorem knows_scope_dedup_witness :
    ["PAPER", "GUIDE"]
      = dedupFirst (["paper", "GUIDE", "Paper"].map (fun s => toUpperGo (trimSpace s))) ∧
    (["PAPER", "GUIDE"] : List String).Nodup ∧
    normalizeDataScopes ["PAPER", "GUIDE"] = .ok ["PAPER", "GUIDE"] :=
  knows_scope_dedup ["paper", "GUIDE", "Paper"] ["PAPER", "GUIDE"] rfl

theorem normalizeDataScope_err_iff (s : String) :
    (∃ e, normalizeDataScope s = .error e) ↔
      toUpperGo (trimSpace s) ∉ knowsAllDataScopes := by
  constructor
  · rintro ⟨e, he⟩ hmem
    obtain ⟨n, hn⟩ := (normalizeDataScope_isOk_iff s).mpr hmem
    rw [he] at hn
    exact Except.noConfusion hn
  · intro hmem
    rcases hn : normalizeDataScope s with e | n
    · exact ⟨e, rfl⟩
    · exact absurd ((normalizeDataScope_isOk_iff s).mp ⟨n, hn⟩) hmem

theorem normalizeDataScopesAux_err_iff :
    ∀ (l seen : List String),
      (∃ e, normalizeDataScopesAux l seen = .error e) ↔
        ∃ s ∈ l, toUpperGo (trimSpace s) ∉ knowsAllDataScopes := by
  intro l
  induction l with
  | nil =>
    intro seen
    simp [normalizeDataScopesAux]
  | cons s rest ih =>
    intro seen
    rcases hn : normalizeDataScope s with e | n
    · simp only [normalizeDataScopesAux, hn]
      constructor
      · intro _
        exact ⟨s, List.mem_cons_self s rest,
          (normalizeDataScope_err_iff s).mp ⟨e, hn⟩⟩
      · intro _
        exact ⟨e, rfl⟩
    · have hsok : toUpperGo (trimSpace s) ∈ knowsAllDataScopes :=
        (normalizeDataScope_isOk_iff s).mp ⟨n, hn⟩
      simp only [normalizeDataScopesAux, hn]
      by_cases hseen : n ∈ seen
      · rw [if_pos hseen]
        rw [ih seen]
        constructor
        · rintro ⟨t, ht, hinv⟩
          exact ⟨t, List.mem_cons_of_mem s ht, hinv⟩
        · rintro ⟨t, ht, hinv⟩
          rcases List.mem_cons.mp ht with h1 | h2
          · exact absurd (h1 ▸ hsok) hinv
          · exact ⟨t, h2, hinv⟩
      · rw [if_neg hseen]
        constructor
        · rintro ⟨e, he⟩
          rcases hrec : normalizeDataScopesAux rest (n :: seen) with e2 | out2
          · obtain ⟨t, ht, hinv⟩ := (ih (n :: seen)).mp ⟨e2, hrec⟩
            exact ⟨t, List.mem_cons_of_mem s ht, hinv⟩
          · rw [hrec] at he
            exact Except.noConfusion he
        · rintro ⟨t, ht, hinv⟩
          have ht' : t ∈ rest := by
            rcases List.mem_cons.mp ht with h1 | h2
            · exact absurd (h1 ▸ hsok) hinv
            · exact h2
          obtain ⟨e2, hrec⟩ := (ih (n :: seen)).mpr ⟨t, ht', hinv⟩
          rw [hrec]
          exact ⟨e2, rfl⟩

theorem normalizeDataScopes_err_iff (l : List String) :
    (∃ e, normalizeDataScopes l = .error e) ↔
      ∃ s ∈ l, toUpperGo (trimSpace s) ∉ knowsAllDataScopes := by
  unfold normalizeDataScopes
  by_cases hl : l.isEmpty
  · rw [if_pos hl, List.isEmpty_iff.mp hl]
    simp
  · rw [if_neg hl]
    exact normalizeDataScopesAux_err_iff l []

/-- Model of strings.TrimRight with a slash cutset: drop trailing
slashes. -/
def trimRightSlashes (s : String) : String :=
  String.mk ((s.toList.reverse.dropWhile (fun c => c = '/')).reverse)

/-- Options accepted by NewKnowsTools; durations are int64 nanosecond
counts. -/
structure KnowsToolOptions where
  APIKey : String
  APIBaseURL : String
  DefaultDataScope : List String
  RequestTimeout : Int
  MaxRetries : Int
  RetryBackoff : Int
  BatchConcurrency : Int
  CacheTTL : Int
  CacheMaxEntries : Int
deriving DecidableEq

/-- Resolved configuration produced by NewKnowsTools: the fields of the
knowsClient plus the factory's default scope and batch concurrency. -/
structure KnowsConfig where
  baseURL : String
  apiKey : String
  requestTimeout : Int
  maxRetries : Int
  retryBackoff : Int
  batchConcurrency : Int
  cacheTTL : Int
  cacheMaxEntries : Int
  defaultDataScope : List String
deriving DecidableEq

/-- Model of NewKnowsTools: validate key, URL and scope list, then
resolve every numeric setting, falling back to the documented default
when out of range (note maxRetries only falls back when negative). -/
def NewKnowsTools (opts : KnowsToolOptions) : Except String KnowsConfig :=
  let apiKey := trimSpace opts.APIKey
  if apiKey = "" then .error "knows api_key is required"
  else
    let apiBaseURL := trimSpace opts.APIBaseURL
    if apiBaseURL = "" then .error "knows api_base_url is required"
    else
      match normalizeDataScopes opts.DefaultDataScope with
      | .error e => .error ("invalid knows default_data_scope: " ++ e)
      | .ok scope0 =>
        let defaultScope := if scope0.isEmpty then knowsAllDataScopes else scope0
        .ok {
          baseURL := trimRightSlashes apiBaseURL,
          apiKey := apiKey,
          requestTimeout :=
            if opts.RequestTimeout ≤ 0 then defaultKnowsRequestTimeout
            else opts.RequestTimeout,
          maxRetries :=
            if opts.MaxRetries < 0 then defaultKnowsMaxRetries else opts.MaxRetries,
          retryBackoff :=
            if opts.RetryBackoff ≤ 0 then defaultKnowsRetryBackoff
            else opts.RetryBackoff,
          batchConcurrency :=
            if opts.BatchConcurrency ≤ 0 then defaultKnowsBatchLimit
            else opts.BatchConcurrency,
          cacheTTL :=
            if opts.CacheTTL ≤ 0 then defaultKnowsCacheTTL else opts.CacheTTL,
          cacheMaxEntries :=
            if opts.CacheMaxEntries ≤ 0 then defaultKnowsCacheEntries
            else opts.CacheMaxEntries,
          defaultDataScope := defaultScope }

/-- Concrete options with zero MaxRetries and otherwise valid values. -/
def optsZeroRetries : KnowsToolOptions :=
  ⟨"k", "https://api.example.com", [], 0, 0, 0, 0, 0, 0⟩

/-- Counterexample for C5: MaxRetries = 0 is non-positive, yet
construction keeps 0 instead of falling back to the documented default
3, refuting the claim that every non-positive numeric setting falls
back to its default. -/
theorem knows_construct_cex :
    NewKnowsTools optsZeroRetries =
      .ok { baseURL := "https://api.example.com", apiKey := "k",
            requestTimeout := defaultKnowsRequestTimeout,
            maxRetries := 0,
            retryBackoff := defaultKnowsRetryBackoff,
            batchConcurrency := defaultKnowsBatchLimit,
            cacheTTL := defaultKnowsCacheTTL,
            cacheMaxEntries := defaultKnowsCacheEntries,
            defaultDataScope := knowsAllDataScopes } ∧
    (0 : Int) ≠ defaultKnowsMaxRetries := ⟨rfl, by decide⟩

/-- C5 (amended): construction fails exactly when the trimmed API key
is empty, the trimmed base URL is empty, or the scope list holds a
value outside the allowed set; on success every non-positive setting
among request timeout, retry backoff, batch concurrency, cache TTL and
cache max entries falls back to its default, while max retries falls
back only when negative (zero is kept, meaning no retries). -/
theorem knows_construct :
    (∀ opts : KnowsToolOptions,
      (∃ e, NewKnowsTools opts = .error e) ↔
        (trimSpace opts.APIKey = "" ∨ trimSpace opts.APIBaseURL = "" ∨
          ∃ s ∈ opts.DefaultDataScope,
            toUpperGo (trimSpace s) ∉ knowsAllDataScopes)) ∧
    (∀ opts cfg, NewKnowsTools opts = .ok cfg →
      ((opts.RequestTimeout ≤ 0 → cfg.requestTimeout = defaultKnowsRequestTimeout) ∧
       (0 < opts.RequestTimeout → cfg.requestTimeout = opts.RequestTimeout)) ∧
      ((opts.MaxRetries < 0 → cfg.maxRetries = defaultKnowsMaxRetries) ∧
       (0 ≤ opts.MaxRetries → cfg.maxRetries = opts.MaxRetries)) ∧
      ((opts.RetryBackoff ≤ 0 → cfg.retryBackoff = defaultKnowsRetryBackoff) ∧
       (0 < opts.RetryBackoff → cfg.retryBackoff = opts.RetryBackoff)) ∧
      ((opts.BatchConcurrency ≤ 0 → cfg.batchConcurrency = defaultKnowsBatchLimit) ∧
       (0 < opts.BatchConcurrency → cfg.batchConcurrency = opts.BatchConcurrency)) ∧
      ((opts.CacheTTL ≤ 0 → cfg.cacheTTL = defaultKnowsCacheTTL) ∧
       (0 < opts.CacheTTL → cfg.cacheTTL = opts.CacheTTL)) ∧
      ((opts.CacheMaxEntries ≤ 0 → cfg.cacheMaxEntries = defaultKnowsCacheEntries) ∧
       (0 < opts.CacheMaxEntries → cfg.cacheMaxEntries = opts.CacheMaxEntries))) := by
  constructor
  · intro opts
    unfold NewKnowsTools
    by_cases hk : trimSpace opts.APIKey = ""
    · rw [if_pos hk]
      simp [hk]
    · rw [if_neg hk]
      by_cases hb : trimSpace opts.APIBaseURL = ""
      · rw [if_pos hb]
        simp [hk, hb]
      · rw [if_neg hb]
        rcases hsc : normalizeDataScopes opts.DefaultDataScope with e | scope0
        · simp only [hsc]
          constructor
          · intro _
            exact Or.inr (Or.inr
              ((normalizeDataScopes_err_iff opts.DefaultDataScope).mp ⟨e, hsc⟩))
          · intro _
            exact ⟨"invalid knows default_data_scope: " ++ e, rfl⟩
        · simp only [hsc]
          constructor
          · rintro ⟨e, he⟩
            exact Except.noConfusion he
          · rintro (h1 | h2 | h3)
            · exact absurd h1 hk
            · exact absurd h2 hb
            · obtain ⟨e, he⟩ :=
                (normalizeDataScopes_err_iff opts.DefaultDataScope).mpr h3
              rw [he] at hsc
              exact Except.noConfusion hsc
  · intro opts cfg h
    unfold NewKnowsTools at h
    by_cases hk : trimSpace opts.APIKey = ""
    · rw [if_pos hk] at h
      exact Except.noConfusion h
    · rw [if_neg hk] at h
      by_cases hb : trimSpace opts.APIBaseURL = ""
      · rw [if_pos hb] at h
        exact Except.noConfusion h
      · rw [if_neg hb] at h
        rcases hsc : normalizeDataScopes opts.DefaultDataScope with e | scope0
        · simp only [hsc] at h
          exact Except.noConfusion h
        · simp only [hsc] at h
          have hcfg := (Except.ok.inj h).symm
          subst hcfg
          refine ⟨⟨?_, ?_⟩, ⟨?_, ?_⟩, ⟨?_, ?_⟩, ⟨?_, ?_⟩, ⟨?_, ?_⟩, ⟨?_, ?_⟩⟩ <;>
            intro hcond <;> simp only <;>
            first
              | rw [if_pos hcond]
              | rw [if_neg (by omega)]

/-- Configuration actually produced for optsZeroRetries. -/
def cfgZeroRetries : KnowsConfig :=
  { baseURL := "https://api.example.com", apiKey := "k",
    requestTimeout := defaultKnowsRequestTimeout,
    maxRetries := 0,
    retryBackoff := defaultKnowsRetryBackoff,
    batchConcurrency := defaultKnowsBatchLimit,
    cacheTTL := defaultKnowsCacheTTL,
    cacheMaxEntries := defaultKnowsCacheEntries,
    defaultDataScope := knowsAllDataScopes }

/-- Witness for C5 (amended): the zero-retries options construct
successfully, keep maxRetries at 0 and default the timeout. -/
theorem knows_construct_witness :
    cfgZeroRetries.maxRetries = 0 ∧
    cfgZeroRetries.requestTimeout = defaultKnowsRequestTimeout :=
  ⟨(knows_construct.2 optsZeroRetries cfgZeroRetries rfl).2.1.2 (by decide),
   (knows_construct.2 optsZeroRetries cfgZeroRetries rfl).1.1 (by decide)⟩

/-- Model of getRequiredString: the key must be present, a string, and
non-empty after trimming; the trimmed value is returned. -/
def getRequiredString (args : List (String × GoVal)) (key : String) :
    Except String String :=
  match mapLookup args key with
  | none => .error (key ++ " is required")
  | some (GoVal.str s) =>
    if trimSpace s = "" then .error (key ++ " must be a non-empty string")
    else .ok (trimSpace s)
  | some _ => .error (key ++ " must be a non-empty string")

/-- Model of getRequiredArray: the key must be present and hold a
generic list. -/
def getRequiredArray (args : List (String × GoVal)) (key : String) :
    Except String (List GoVal) :=
  match mapLookup args key with
  | none => .error (key ++ " is required")
  | some (GoVal.arr xs) => .ok xs
  | some _ => .error (key ++ " must be an array")

/-- Model of strconv.ParseBool: the accepted literal spellings. -/
def goParseBool (s : String) : Option Bool :=
  if s = "1" ∨ s = "t" ∨ s = "T" ∨ s = "TRUE" ∨ s = "true" ∨ s = "True" then some true
  else if s = "0" ∨ s = "f" ∨ s = "F" ∨ s = "FALSE" ∨ s = "false" ∨ s = "False" then
    some false
  else none

/-- Model of getOptionalBoolPointer: absent or explicit null maps to no
value; a boolean is taken as is; a string is parsed with
strconv.ParseBool after trimming; anything else is rejected. -/
def getOptionalBoolPointer (args : List (String × GoVal)) (key : String) :
    Except String (Option Bool) :=
  match mapLookup args key with
  | none => .ok none
  | some GoVal.nil => .ok none
  | some (GoVal.boolean b) => .ok (some b)
  | some (GoVal.str s) =>
    match goParseBool (trimSpace s) with
    | some b => .ok (some b)
    | none => .error (key ++ " must be a boolean")
  | some _ => .error (key ++ " must be a boolean")

/-- Sub-request of knows_batch_answer. -/
structure KnowsBatchAnswerRequest where
  QuestionID : String
  AnswerType : String
deriving DecidableEq

/-- Sub-request of knows_batch_get_evidence_details. -/
structure KnowsBatchEvidenceRequest where
  EvidenceID : String
  type : String
deriving DecidableEq

/-- Validation of one element of the requests list, with the ordinal
index embedded in error messages. -/
def parseBatchAnswerItem (i : Nat) (item : GoVal) :
    Except String KnowsBatchAnswerRequest :=
  match item with
  | GoVal.obj m =>
    match getRequiredString m "question_id" with
    | .error e => .error ("requests[" ++ toString i ++ "]: " ++ e)
    | .ok questionID =>
      match getRequiredString m "answer_type" with
      | .error e => .error ("requests[" ++ toString i ++ "]: " ++ e)
      | .ok answerType0 =>
        match normalizeAnswerType answerType0 with
        | .error e => .error ("requests[" ++ toString i ++ "]: " ++ e)
        | .ok answerType => .ok ⟨questionID, answerType⟩
  | _ => .error ("requests[" ++ toString i ++ "] must be an object")

/-- Element loop of parseBatchAnswerRequests. -/
def parseBatchAnswerAux : Nat → List GoVal → Except String (List KnowsBatchAnswerRequest)
  | _, [] => .ok []
  | i, item :: rest =>
    match parseBatchAnswerItem i item with
    | .error e => .error e
    | .ok req =>
      match parseBatchAnswerAux (i + 1) rest with
      | .error e => .error e
      | .ok out => .ok (req :: out)

/-- Model of parseBatchAnswerRequests: require the requests array,
validate each element, and reject an empty result list. -/
def parseBatchAnswerRequests (args : List (String × GoVal)) :
    Except String (List KnowsBatchAnswerRequest) :=
  match getRequiredArray args "requests" with
  | .error e => .error e
  | .ok raw =>
    match parseBatchAnswerAux 0 raw with
    | .error e => .error e
    | .ok out =>
      if out.isEmpty then .error "requests must not be empty" else .ok out

/-- Validation of one element of the evidences list. -/
def parseBatchEvidenceItem (i : Nat) (item : GoVal) :
    Except String KnowsBatchEvidenceRequest :=
  match item with
  | GoVal.obj m =>
    match getRequiredString m "evidence_id" with
    | .error e => .error ("evidences[" ++ toString i ++ "]: " ++ e)
    | .ok evidenceID =>
      match getRequiredString m "type" with
      | .error e => .error ("evidences[" ++ toString i ++ "]: " ++ e)
      | .ok evidenceType0 =>
        match normalizeDataScope evidenceType0 with
        | .error e => .error ("evidences[" ++ toString i ++ "]: " ++ e)
        | .ok evidenceType => .ok ⟨evidenceID, evidenceType⟩
  | _ => .error ("evidences[" ++ toString i ++ "] must be an object")

/-- Element loop of parseBatchEvidenceRequests. -/
def parseBatchEvidenceAux :
    Nat → List GoVal → Except String (List KnowsBatchEvidenceRequest)
  | _, [] => .ok []
  | i, item :: rest =>
    match parseBatchEvidenceItem i item with
    | .error e => .error e
    | .ok req =>
      match parseBatchEvidenceAux (i + 1) rest with
      | .error e => .error e
      | .ok out => .ok (req :: out)

/-- Model of parseBatchEvidenceRequests: require the evidences array,
validate each element, and reject an empty result list. -/
def parseBatchEvidenceRequests (args : List (String × GoVal)) :
    Except String (List KnowsBatchEvidenceRequest) :=
  match getRequiredArray args "evidences" with
  | .error e => .error e
  | .ok raw =>
    match parseBatchEvidenceAux 0 raw with
    | .error e => .error e
    | .ok out =>
      if out.isEmpty then .error "evidences must not be empty" else .ok out

/-- C8: a present, well-typed but empty request list fails validation
with the dedicated must-not-be-empty error before any network call, and
every successful parse returns at least one sub-request. -/
theorem knows_batch_empty_rejected :
    (∀ args, mapLookup args "requests" = some (GoVal.arr []) →
      parseBatchAnswerRequests args = .error "requests must not be empty") ∧
    (∀ args, mapLookup args "evidences" = some (GoVal.arr []) →
      parseBatchEvidenceRequests args = .error "evidences must not be empty") ∧
    (∀ args out, parseBatchAnswerRequests args = .ok out → 0 < out.length) ∧
    (∀ args out, parseBatchEvidenceRequests args = .ok out → 0 < out.length) := by
  refine ⟨?_, ?_, ?_, ?_⟩
  · intro args hl
    simp [parseBatchAnswerRequests, getRequiredArray, hl, parseBatchAnswerAux]
  · intro args hl
    simp [parseBatchEvidenceRequests, getRequiredArray, hl, parseBatchEvidenceAux]
  · intro args out h
    unfold parseBatchAnswerRequests at h
    rcases hga : getRequiredArray args "requests" with e | raw
    · simp only [hga] at h
      exact Except.noConfusion h
    · simp only [hga] at h
      rcases haux : parseBatchAnswerAux 0 raw with e | out'
      · simp only [haux] at h
        exact Except.noConfusion h
      · simp only [haux] at h
        by_cases he : out'.isEmpty
        · rw [if_pos he] at h
          exact Except.noConfusion h
        · rw [if_neg he] at h
          rw [← Except.ok.inj h]
          exact List.length_pos.mpr (fun h0 => he (by rw [h0]; rfl))
  · intro args out h
    unfold parseBatchEvidenceRequests at h
    rcases hga : getRequiredArray args "evidences" with e | raw
    · simp only [hga] at h
      exact Except.noConfusion h
    · simp only [hga] at h
      rcases haux : parseBatchEvidenceAux 0 raw with e | out'
      · simp only [haux] at h
        exact Except.noConfusion h
      · simp only [haux] at h
        by_cases he : out'.isEmpty
        · rw [if_pos he] at h
          exact Except.noConfusion h
        · rw [if_neg he] at h
          rw [← Except.ok.inj h]
          exact List.length_pos.mpr (fun h0 => he (by rw [h0]; rfl))

/-- Witness for C8: concrete argument bags with empty lists are
rejected with the dedicated error. -/
theorem knows_batch_empty_rejected_witness :
    parseBatchAnswerRequests [("requests", GoVal.arr [])]
      = .error "requests must not be empty" ∧
    parseBatchEvidenceRequests [("evidences", GoVal.arr [])]
      = .error "evidences must not be empty" :=
  ⟨knows_batch_empty_rejected.1 [("requests", GoVal.arr [])] rfl,
   knows_batch_empty_rejected.2.1 [("evidences", GoVal.arr [])] rfl⟩

/-- Cache key of getPaperEN: fmt.Sprintf PAPER:id:flag where the flag
defaults to false for a nil pointer. -/
def getPaperENCacheKey (evidenceID : String) (translate : Option Bool) : String :=
  "PAPER:" ++ evidenceID ++ ":" ++ goBoolString (translate.getD false)

/-- Cache key of getGuide. -/
def getGuideCacheKey (evidenceID : String) (translate : Option Bool) : String :=
  "GUIDE:" ++ evidenceID ++ ":" ++ goBoolString (translate.getD false)

/-- Cache key of getMeeting. -/
def getMeetingCacheKey (evidenceID : String) (translate : Option Bool) : String :=
  "MEETING:" ++ evidenceID ++ ":" ++ goBoolString (translate.getD false)

/-- Request payload built by getPaperEN, getGuide and getMeeting: the
evidence id always, the translate flag only when the pointer is
non-nil. -/
def knowsTranslatePayload (evidenceID : String) (translate : Option Bool) :
    List (String × GoVal) :=
  match translate with
  | none => [("evidence_id", GoVal.str evidenceID)]
  | some b =>
    [("evidence_id", GoVal.str evidenceID), ("translate_to_chinese", GoVal.boolean b)]

/-- Model of (*knowsClient).getPaperEN over the cache state, with the
remote exchange's outcome supplied as an oracle: a cache hit returns
the cached value; a miss consults the remote call and caches a
successful result. -/
def getPaperEN {α : Type} (c : KnowsDetailCache α) (now : Int) (evidenceID : String)
    (translate : Option Bool) (remote : Except String α) :
    Except String α × KnowsDetailCache α :=
  let cacheKey := getPaperENCacheKey evidenceID translate
  let g := c.Get cacheKey now
  match g.1 with
  | some cached => (.ok cached, g.2)
  | none =>
    match remote with
    | .error e => (.error e, g.2)
    | .ok data => (.ok data, g.2.Set cacheKey data now)

/-- Model of (*knowsClient).getGuide, as getPaperEN with the GUIDE
key. -/
def getGuide {α : Type} (c : KnowsDetailCache α) (now : Int) (evidenceID : String)
    (translate : Option Bool) (remote : Except String α) :
    Except String α × KnowsDetailCache α :=
  let cacheKey := getGuideCacheKey evidenceID translate
  let g := c.Get cacheKey now
  match g.1 with
  | some cached => (.ok cached, g.2)
  | none =>
    match remote with
    | .error e => (.error e, g.2)
    | .ok data => (.ok data, g.2.Set cacheKey data now)

/-- Model of (*knowsClient).getMeeting, as getPaperEN with the MEETING
key. -/
def getMeeting {α : Type} (c : KnowsDetailCache α) (now : Int) (evidenceID : String)
    (translate : Option Bool) (remote : Except String α) :
    Except String α × KnowsDetailCache α :=
  let cacheKey := getMeetingCacheKey evidenceID translate
  let g := c.Get cacheKey now
  match g.1 with
  | some cached => (.ok cached, g.2)
  | none =>
    match remote with
    | .error e => (.error e, g.2)
    | .ok data => (.ok data, g.2.Set cacheKey data now)

theorem getPaperEN_eq_miss_ok {α : Type} (c c2 : KnowsDetailCache α) (now : Int)
    (evidenceID : String) (translate : Option Bool) (v : α)
    (hget : c.Get (getPaperENCacheKey evidenceID translate) now = (none, c2)) :
    getPaperEN c now evidenceID translate (.ok v)
      = (.ok v, c2.Set (getPaperENCacheKey evidenceID translate) v now) := by
  simp only [getPaperEN, hget]

theorem getPaperEN_eq_hit {α : Type} (c c2 : KnowsDetailCache α) (now : Int)
    (evidenceID : String) (translate : Option Bool) (cached : α)
    (remote : Except String α)
    (hget : c.Get (getPaperENCacheKey evidenceID translate) now = (some cached, c2)) :
    getPaperEN c now evidenceID translate remote = (.ok cached, c2) := by
  simp only [getPaperEN, hget]

theorem getGuide_eq_miss_ok {α : Type} (c c2 : KnowsDetailCache α) (now : Int)
    (evidenceID : String) (translate : Option Bool) (v : α)
    (hget : c.Get (getGuideCacheKey evidenceID translate) now = (none, c2)) :
    getGuide c now evidenceID translate (.ok v)
      = (.ok v, c2.Set (getGuideCacheKey evidenceID translate) v now) := by
  simp only [getGuide, hget]

theorem getGuide_eq_hit {α : Type} (c c2 : KnowsDetailCache α) (now : Int)
    (evidenceID : String) (translate : Option Bool) (cached : α)
    (remote : Except String α)
    (hget : c.Get (getGuideCacheKey evidenceID translate) now = (some cached, c2)) :
    getGuide c now evidenceID translate remote = (.ok cached, c2) := by
  simp only [getGuide, hget]

/-- C9: for the translated single-item lookups, an absent translation
flag and an explicit false flag yield the same cache key (for PAPER,
GUIDE and MEETING), the optional-bool validation maps an absent
argument and an explicit false argument to those two pointer forms, the
outgoing payload omits the flag for a nil pointer but sends false for
an explicit pointer, and a value fetched with the flag absent is served
from the cache when requested again with the flag explicitly false. -/
theorem knows_translate_cache_key :
    (∀ id : String,
      getPaperENCacheKey id none = getPaperENCacheKey id (some false) ∧
      getGuideCacheKey id none = getGuideCacheKey id (some false) ∧
      getMeetingCacheKey id none = getMeetingCacheKey id (some false)) ∧
    (∀ args, mapLookup args "translate_to_chinese" = none →
      getOptionalBoolPointer args "translate_to_chinese" = .ok none) ∧
    (∀ args, mapLookup args "translate_to_chinese" = some (GoVal.boolean false) →
      getOptionalBoolPointer args "translate_to_chinese" = .ok (some false)) ∧
    (∀ id : String,
      mapLookup (knowsTranslatePayload id none) "translate_to_chinese" = none ∧
      mapLookup (knowsTranslatePayload id (some false)) "translate_to_chinese"
        = some (GoVal.boolean false)) ∧
    (∀ (α : Type) (c : KnowsDetailCache α) (now now' : Int) (id : String) (v : α)
      (remote2 : Except String α),
      mapLookup c.entries (getPaperENCacheKey id none) = none →
      0 < c.maxEntries → now' ≤ now + c.ttl →
      (getPaperEN c now id none (.ok v)).1 = .ok v ∧
      (getPaperEN (getPaperEN c now id none (.ok v)).2 now' id (some false)
        remote2).1 = .ok v) ∧
    (∀ (α : Type) (c : KnowsDetailCache α) (now now' : Int) (id : String) (v : α)
      (remote2 : Except String α),
      mapLookup c.entries (getGuideCacheKey id none) = none →
      0 < c.maxEntries → now' ≤ now + c.ttl →
      (getGuide c now id none (.ok v)).1 = .ok v ∧
      (getGuide (getGuide c now id none (.ok v)).2 now' id (some false)
        remote2).1 = .ok v) := by
  refine ⟨?_, ?_, ?_, ?_, ?_, ?_⟩
  · intro id
    exact ⟨rfl, rfl, rfl⟩
  · intro args hl
    simp [getOptionalBoolPointer, hl]
  · intro args hl
    simp [getOptionalBoolPointer, hl]
  · intro id
    exact ⟨rfl, rfl⟩
  · intro α c now now' id v remote2 habs hmax htime
    have hmiss := getPaperEN_eq_miss_ok c c now id none v
      (Get_eq_of_lookup_none c _ now habs)
    have hsetl := mapLookup_Set_self c (getPaperENCacheKey id none) v now hmax
    have hget2 : (c.Set (getPaperENCacheKey id none) v now).Get
        (getPaperENCacheKey id (some false)) now'
        = (some v, c.Set (getPaperENCacheKey id none) v now) := by
      have hkey : getPaperENCacheKey id (some false) = getPaperENCacheKey id none := rfl
      rw [hkey]
      rw [Get_eq_of_lookup_some _ _ now' ⟨v, now + c.ttl⟩ hsetl]
      rw [if_neg (by simp; omega)]
    have hhit := getPaperEN_eq_hit
      (c.Set (getPaperENCacheKey id none) v now)
      (c.Set (getPaperENCacheKey id none) v now) now' id (some false) v remote2 hget2
    rw [hmiss]
    exact ⟨rfl, by rw [hhit]⟩
  · intro α c now now' id v remote2 habs hmax htime
    have hmiss := getGuide_eq_miss_ok c c now id none v
      (Get_eq_of_lookup_none c _ now habs)
    have hsetl := mapLookup_Set_self c (getGuideCacheKey id none) v now hmax
    have hget2 : (c.Set (getGuideCacheKey id none) v now).Get
        (getGuideCacheKey id (some false)) now'
        = (some v, c.Set (getGuideCacheKey id none) v now) := by
      have hkey : getGuideCacheKey id (some false) = getGuideCacheKey id none := rfl
      rw [hkey]
      rw [Get_eq_of_lookup_some _ _ now' ⟨v, now + c.ttl⟩ hsetl]
      rw [if_neg (by simp; omega)]
    have hhit := getGuide_eq_hit
      (c.Set (getGuideCacheKey id none) v now)
      (c.Set (getGuideCacheKey id none) v now) now' id (some false) v remote2 hget2
    rw [hmiss]
    exact ⟨rfl, by rw [hhit]⟩

/-- Witness for C9: a concrete paper lookup fetched with the flag
absent is served from the cache with the flag explicitly false, even
though the second call's remote oracle would fail. -/
theorem knows_translate_cache_key_witness :
    (getPaperEN cacheEx0 0 "e1" none (.ok 42)).1 = .ok 42 ∧
    (getPaperEN (getPaperEN cacheEx0 0 "e1" none (.ok 42)).2 3 "e1" (some false)
      (.error "network down")).1 = .ok 42 :=
  (knows_translate_cache_key.2.2.2.2.1) Nat cacheEx0 0 3 "e1" 42
    (.error "network down") rfl (by decide) (by decide)

/-- Result row of one knows_batch_answer sub-request, the map built by
the worker goroutine: identifier, status, and payload or error. -/
structure KnowsAnswerRow (α : Type) where
  question_id : String
  status : String
  data : Option α
  error : Option String
deriving DecidableEq

/-- Row computed by the worker for one answer sub-request from the
outcome of the underlying client call. -/
def answerRow {α : Type} (req : KnowsBatchAnswerRequest) (outcome : Except String α) :
    KnowsAnswerRow α :=
  match outcome with
  | .ok d => ⟨req.QuestionID, "success", some d, none⟩
  | .error e => ⟨req.QuestionID, "error", none, some e⟩

/-- Result row of one knows_batch_get_evidence_details sub-request. -/
structure KnowsEvidenceRow (α : Type) where
  evidence_id : String
  type : String
  status : String
  data : Option α
  error : Option String
deriving DecidableEq

/-- Row computed by the worker for one evidence sub-request. -/
def evidenceRow {α : Type} (req : KnowsBatchEvidenceRequest)
    (outcome : Except String α) : KnowsEvidenceRow α :=
  match outcome with
  | .ok d => ⟨req.EvidenceID, req.type, "success", some d, none⟩
  | .error e => ⟨req.EvidenceID, req.type, "error", none, some e⟩

/-- Collection loop of the batch handlers: a result slot per input,
each channel message writing its row at its own index.  The arrival
list is the channel content in completion order. -/
def scatterRows {β : Type} : List (Option β) → List (Nat × β) → List (Option β)
  | acc, [] => acc
  | acc, (i, r) :: rest => scatterRows (acc.set i (some r)) rest

/-- The pre-sized result array of the batch handlers filled from the
channel messages. -/
def batchCollect {β : Type} (n : Nat) (arrivals : List (Nat × β)) : List (Option β) :=
  scatterRows (List.replicate n none) arrivals

/-- Canonical channel content of knows_batch_answer: one message per
input index carrying that sub-request's row. -/
def answerArrivals {α : Type} (reqs : List KnowsBatchAnswerRequest)
    (call : Nat → Except String α) : List (Nat × KnowsAnswerRow α) :=
  (List.range reqs.length).map
    (fun i => (i, answerRow (reqs.getD i ⟨"", ""⟩) (call i)))

/-- Canonical channel content of knows_batch_get_evidence_details. -/
def evidenceArrivals {α : Type} (reqs : List KnowsBatchEvidenceRequest)
    (call : Nat → Except String α) : List (Nat × KnowsEvidenceRow α) :=
  (List.range reqs.length).map
    (fun i => (i, evidenceRow (reqs.getD i ⟨"", ""⟩) (call i)))

theorem scatterRows_length {β : Type} :
    ∀ (items : List (Nat × β)) (acc : List (Option β)),
      (scatterRows acc items).length = acc.length := by
  intro items
  induction items with
  | nil =>
    intro acc
    rfl
  | cons p rest ih =>
    intro acc
    rcases p with ⟨i, r⟩
    simp only [scatterRows]
    rw [ih (acc.set i (some r)), List.length_set]

theorem scatterRows_get {β : Type} (f : Nat → β) :
    ∀ (items : List (Nat × β)) (acc : List (Option β)) (j : Nat),
      (∀ p ∈ items, p.2 = f p.1) → j < acc.length →
      ((j ∈ items.map Prod.fst → (scatterRows acc items)[j]? = some (some (f j))) ∧
       (j ∉ items.map Prod.fst → (scatterRows acc items)[j]? = acc[j]?)) := by
  intro items
  induction items with
  | nil =>
    intro acc j _ _
    constructor
    · intro hmem
      simp at hmem
    · intro _
      rfl
  | cons p rest ih =>
    intro acc j hrows hj
    rcases p with ⟨i, r⟩
    have hr : r = f i := hrows (i, r) (List.mem_cons_self _ _)
    have hj' : j < (acc.set i (some r)).length := by
      rw [List.length_set]
      exact hj
    have hrest : ∀ q ∈ rest, q.2 = f q.1 :=
      fun q hq => hrows q (List.mem_cons_of_mem _ hq)
    obtain ⟨ih1, ih2⟩ := ih (acc.set i (some r)) j hrest hj'
    constructor
    · intro hmem
      by_cases hjr : j ∈ rest.map Prod.fst
      · simp only [scatterRows]
        exact ih1 hjr
      · have hji : j = i := by
          rcases List.mem_map.mp hmem with ⟨q, hq, hqj⟩
          rcases List.mem_cons.mp hq with h1 | h2
          · rw [← hqj, h1]
          · exact absurd (hqj ▸ List.mem_map_of_mem Prod.fst h2) hjr
        simp only [scatterRows]
        rw [ih2 hjr, hji, hr]
        exact List.getElem?_set_self (by rw [hji] at hj; exact hj)
    · intro hmem
      have hji : j ≠ i := by
        intro h
        exact hmem (by simp [h])
      have hjr : j ∉ rest.map Prod.fst := by
        intro h
        exact hmem (by simp [h])
      simp only [scatterRows]
      rw [ih2 hjr]
      exact List.getElem?_set_ne (fun h => hji h.symm)

/-- C1: for every batch call whose sub-requests all parse, and any
completion order of the concurrent workers (any permutation of the
per-index channel messages), the collected result list has exactly one
slot per input, slot i carries the row of input i — its identifier with
status success and the payload when the underlying call succeeded, or
status error and the message with no payload when it failed — so one
sub-request's failure leaves every other slot unchanged. -/
theorem knows_batch_order_isolation :
    (∀ (α : Type) (args : List (String × GoVal)) (reqs : List KnowsBatchAnswerRequest)
      (call : Nat → Except String α) (arrivals : List (Nat × KnowsAnswerRow α)),
      parseBatchAnswerRequests args = .ok reqs →
      arrivals.Perm (answerArrivals reqs call) →
      (batchCollect reqs.length arrivals).length = reqs.length ∧
      (∀ j, j < reqs.length →
        (batchCollect reqs.length arrivals)[j]?
          = some (some (answerRow (reqs.getD j ⟨"", ""⟩) (call j))) ∧
        (∀ d, call j = Except.ok d →
          answerRow (reqs.getD j ⟨"", ""⟩) (call j)
            = ⟨(reqs.getD j ⟨"", ""⟩).QuestionID, "success", some d, none⟩) ∧
        (∀ e, call j = Except.error e →
          answerRow (reqs.getD j ⟨"", ""⟩) (call j)
            = ⟨(reqs.getD j ⟨"", ""⟩).QuestionID, "error", none, some e⟩))) ∧
    (∀ (α : Type) (args : List (String × GoVal))
      (reqs : List KnowsBatchEvidenceRequest)
      (call : Nat → Except String α) (arrivals : List (Nat × KnowsEvidenceRow α)),
      parseBatchEvidenceRequests args = .ok reqs →
      arrivals.Perm (evidenceArrivals reqs call) →
      (batchCollect reqs.length arrivals).length = reqs.length ∧
      (∀ j, j < reqs.length →
        (batchCollect reqs.length arrivals)[j]?
          = some (some (evidenceRow (reqs.getD j ⟨"", ""⟩) (call j))) ∧
        (∀ d, call j = Except.ok d →
          evidenceRow (reqs.getD j ⟨"", ""⟩) (call j)
            = ⟨(reqs.getD j ⟨"", ""⟩).EvidenceID, (reqs.getD j ⟨"", ""⟩).type,
               "success", some d, none⟩) ∧
        (∀ e, call j = Except.error e →
          evidenceRow (reqs.getD j ⟨"", ""⟩) (call j)
            = ⟨(reqs.getD j ⟨"", ""⟩).EvidenceID, (reqs.getD j ⟨"", ""⟩).type,
               "error", none, some e⟩))) := by
  constructor
  · intro α args reqs call arrivals hparse hperm
    refine ⟨?_, ?_⟩
    · unfold batchCollect
      rw [scatterRows_length arrivals _, List.length_replicate]
    · intro j hj
      have hrows : ∀ p ∈ arrivals,
          p.2 = answerRow (reqs.getD p.1 ⟨"", ""⟩) (call p.1) := by
        intro p hp
        rcases List.mem_map.mp (hperm.subset hp) with ⟨i, hi, heq⟩
        rw [← heq]
      have hcov : j ∈ arrivals.map Prod.fst := by
        have hmem : (j, answerRow (reqs.getD j ⟨"", ""⟩) (call j))
            ∈ answerArrivals reqs call :=
          List.mem_map.mpr ⟨j, List.mem_range.mpr hj, rfl⟩
        exact List.mem_map_of_mem Prod.fst (hperm.symm.subset hmem)
      have hget := (scatterRows_get
        (fun i => answerRow (reqs.getD i ⟨"", ""⟩) (call i)) arrivals
        (List.replicate reqs.length none) j hrows
        (by rw [List.length_replicate]; exact hj)).1 hcov
      refine ⟨hget, ?_, ?_⟩
      · intro d hd
        rw [hd]
        rfl
      · intro e he
        rw [he]
        rfl
  · intro α args reqs call arrivals hparse hperm
    refine ⟨?_, ?_⟩
    · unfold batchCollect
      rw [scatterRows_length arrivals _, List.length_replicate]
    · intro j hj
      have hrows : ∀ p ∈ arrivals,
          p.2 = evidenceRow (reqs.getD p.1 ⟨"", ""⟩) (call p.1) := by
        intro p hp
        rcases List.mem_map.mp (hperm.subset hp) with ⟨i, hi, heq⟩
        rw [← heq]
      have hcov : j ∈ arrivals.map Prod.fst := by
        have hmem : (j, evidenceRow (reqs.getD j ⟨"", ""⟩) (call j))
            ∈ evidenceArrivals reqs call :=
          List.mem_map.mpr ⟨j, List.mem_range.mpr hj, rfl⟩
        exact List.mem_map_of_mem Prod.fst (hperm.symm.subset hmem)
      have hget := (scatterRows_get
        (fun i => evidenceRow (reqs.getD i ⟨"", ""⟩) (call i)) arrivals
        (List.replicate reqs.length none) j hrows
        (by rw [List.length_replicate]; exact hj)).1 hcov
      refine ⟨hget, ?_, ?_⟩
      · intro d hd
        rw [hd]
        rfl
      · intro e he
        rw [he]
        rfl

/-- Concrete argument bag for a two-element answer batch. -/
def batchArgsEx : List (String × GoVal) :=
  [("requests", GoVal.arr
    [GoVal.obj [("question_id", GoVal.str "q1"), ("answer_type", GoVal.str "CLINICAL")],
     GoVal.obj [("question_id", GoVal.str "q2"), ("answer_type", GoVal.str "RESEARCH")]])]

/-- Parsed requests of batchArgsEx. -/
def batchReqsEx : List KnowsBatchAnswerRequest :=
  [⟨"q1", "CLINICAL"⟩, ⟨"q2", "RESEARCH"⟩]

/-- Concrete per-index outcomes: the first succeeds, the second fails. -/
def batchCallEx : Nat → Except String Nat :=
  fun i => if i = 0 then .ok 10 else .error "boom"

/-- Channel messages arriving in reversed completion order. -/
def batchArrivalsEx : List (Nat × KnowsAnswerRow Nat) :=
  [(1, ⟨"q2", "error", none, some "boom"⟩), (0, ⟨"q1", "success", some 10, none⟩)]

/-- Witness for C1: with reversed completion order and one failing
sub-request, both slots still hold their own sub-request's outcome. -/
theorem knows_batch_order_isolation_witness :
    (batchCollect batchReqsEx.length batchArrivalsEx).length = batchReqsEx.length ∧
    (batchCollect batchReqsEx.length batchArrivalsEx)[0]?
      = some (some (answerRow (batchReqsEx.getD 0 ⟨"", ""⟩) (batchCallEx 0))) ∧
    (batchCollect batchReqsEx.length batchArrivalsEx)[1]?
      = some (some (answerRow (batchReqsEx.getD 1 ⟨"", ""⟩) (batchCallEx 1))) := by
  have h := knows_batch_order_isolation.1 Nat batchArgsEx batchReqsEx batchCallEx
    batchArrivalsEx rfl (by decide)
  exact ⟨h.1, (h.2 0 (by decide)).1, (h.2 1 (by decide)).1⟩
